import Mathlib

/-!
Verification of the tts-lifeboat backup engine (Go) against its
natural-language specification.  The Go code is shallowly embedded:
pure helpers become Lean functions over `List Char` / `Nat` / `Int`,
filesystem and subprocess effects become explicit oracle records, and
`time.Time` instants are modelled as natural numbers (day counts), with
the `time.Parse("2006-01-02", _)` / `Format` pair modelled by a decimal
codec.  Every definition mirrors a named function of the repository.
-/

namespace Lifeboat

/-! ## Dates and small string helpers -/

/-- Model of `time.Parse("2006-01-02", s)`: a decimal-digit codec into the
instant scale.  An empty or non-numeric string fails to parse, mirroring a
parse error in Go. -/
def digitVal (c : Char) : Option Nat :=
  if 48 ≤ c.toNat ∧ c.toNat ≤ 57 then some (c.toNat - 48) else none

def parseDigits : List Char → Nat → Option Nat
  | [], acc => some acc
  | c :: cs, acc =>
    match digitVal c with
    | some d => parseDigits cs (acc * 10 + d)
    | none => none

def parseDate (s : String) : Option Nat :=
  match s.data with
  | [] => none
  | c :: cs => parseDigits (c :: cs) 0

/-- Model of `time.Format("2006-01-02")`: renders the instant through the
same decimal codec (`Nat.repr` produces the decimal digit string). -/
def formatDate (t : Nat) : String := Nat.repr t

/-- Model of `time.AddDate(0, 0, days)` on the day-count scale. -/
def addDays (t : Nat) (days : Int) : Nat := ((t : Int) + days).toNat

/-- Model of Go `strings.HasSuffix`. -/
def hasSuffix (s suffix : String) : Bool := suffix.data.isSuffixOf s.data

/-- `sanitizeFolderName` (collector.go): replaces space, `/`, `\`, `:` by
underscores and lowercases; the four replaced patterns are single
characters, so the `strings.ReplaceAll` chain acts characterwise. -/
def sanitizeChar (c : Char) : Char :=
  if c = ' ' ∨ c = '/' ∨ c = '\\' ∨ c = ':' then '_' else c

def sanitizeFolderName (title : String) : String :=
  String.mk ((title.data.map sanitizeChar).map Char.toLower)

/-- Model of `filepath.Join` of two components. -/
def joinPath (a b : String) : String := a ++ "/" ++ b

/-! ## Data model (metadata.go) -/

/-- `IndexEntry` (metadata.go): one row of the backup registry.
`date` is the creation instant; `deleteAfter` is the date string with
`""` meaning "never expires". -/
structure IndexEntry where
  id : String
  date : Nat
  path : String
  size : String
  deleteAfter : String
  checkpoint : Bool
  note : String
deriving DecidableEq, Repr

/-- `Index` (metadata.go): the whole registry. -/
structure Index where
  backups : List IndexEntry
deriving DecidableEq, Repr

/-- `Index.AddEntry`. -/
def addEntry (idx : Index) (entry : IndexEntry) : Index :=
  ⟨idx.backups ++ [entry]⟩

/-- `Index.GetByID`: first entry with the given id. -/
def getByID (idx : Index) (id : String) : Option IndexEntry :=
  idx.backups.find? (fun e => e.id = id)

/-- The comparison `index.Backups[i].Date.After(index.Backups[j].Date)`
used by every `sort.Slice` call over the index (newest first).  The Go
sort is unstable, so any permutation-correct sort models it; we use
insertion sort so that the model stays kernel-computable. -/
def sortByDateDesc (l : List IndexEntry) : List IndexEntry :=
  l.insertionSort (fun a b => b.date ≤ a.date)

/-- `Index.GetLatest`: sorts newest first and returns the head. -/
def getLatest (idx : Index) : Option IndexEntry :=
  match sortByDateDesc idx.backups with
  | [] => none
  | e :: _ => some e

/-- `Index.MarkAsCheckpoint` body: the first entry with the given id gets
`Checkpoint = true`, `DeleteAfter = ""`, and (if the note is nonempty) the
new note; the boolean reports whether a match was found. -/
def markList (id note : String) : List IndexEntry → List IndexEntry × Bool
  | [] => ([], false)
  | e :: rest =>
    if e.id = id then
      ({ e with
          checkpoint := true
          deleteAfter := ""
          note := (if note ≠ "" then note else e.note) } :: rest, true)
    else
      let r := markList id note rest
      (e :: r.1, r.2)

def markAsCheckpoint (idx : Index) (id note : String) : Index × Bool :=
  let r := markList id note idx.backups
  (⟨r.1⟩, r.2)

/-- `Index.RemoveEntry` body: removes the first entry with the given id. -/
def removeList (id : String) : List IndexEntry → List IndexEntry
  | [] => []
  | e :: rest => if e.id = id then rest else e :: removeList id rest

def removeEntry (idx : Index) (id : String) : Index :=
  ⟨removeList id idx.backups⟩

/-- The per-entry test of `Index.GetExpired`: skip checkpoints, skip empty
`delete_after`, otherwise parse the date and require `now.After(d)`. -/
def expiredPred (now : Nat) (e : IndexEntry) : Bool :=
  if e.checkpoint then false
  else if e.deleteAfter = "" then false
  else
    match parseDate e.deleteAfter with
    | some d => decide (d < now)
    | none => false

/-- `Index.GetExpired` (metadata.go lines 173-192). -/
def GetExpired (now : Nat) (idx : Index) : List IndexEntry :=
  idx.backups.filter (expiredPred now)

/-! ## Claim C3 -/

/-- C3: `GetExpired` contains exactly the non-checkpoint entries whose
`delete_after` parses to a date strictly before `now`; checkpoints are
never in the set regardless of age, and entries with empty
`delete_after` are never in the set. -/
theorem c3_getExpired_characterization (now : Nat) (idx : Index) (e : IndexEntry) :
    (e ∈ GetExpired now idx ↔
      e ∈ idx.backups ∧ e.checkpoint = false ∧ e.deleteAfter ≠ "" ∧
        ∃ d, parseDate e.deleteAfter = some d ∧ d < now) ∧
    (e.checkpoint = true → e ∉ GetExpired now idx) ∧
    (e.deleteAfter = "" → e ∉ GetExpired now idx) := by
  have hmem : e ∈ GetExpired now idx ↔ e ∈ idx.backups ∧ expiredPred now e = true := by
    simp [GetExpired, List.mem_filter]
  have hpred : expiredPred now e = true ↔
      e.checkpoint = false ∧ e.deleteAfter ≠ "" ∧
        ∃ d, parseDate e.deleteAfter = some d ∧ d < now := by
    unfold expiredPred
    split
    next hc => simp [hc]
    next hc =>
      simp only [Bool.not_eq_true] at hc
      split
      next hda => simp [hda]
      next hda =>
        split
        next d hp => simp [hc, hda, hp]
        next hp => simp [hc, hda, hp]
  constructor
  · rw [hmem, hpred]
  · constructor
    · intro hc hin
      rcases hmem.mp hin with ⟨_, hp⟩
      rcases (hpred.mp hp) with ⟨hfalse, _⟩
      rw [hc] at hfalse; exact Bool.true_eq_false.mp hfalse
    · intro hda hin
      rcases hmem.mp hin with ⟨_, hp⟩
      rcases (hpred.mp hp) with ⟨_, hne, _⟩
      exact hne hda

/-- Witness for C3 at a concrete expired entry. -/
theorem c3_witness :
    (⟨"b1", 5, "p", "1 B", "7", false, ""⟩ : IndexEntry) ∈
      GetExpired 10 ⟨[⟨"b1", 5, "p", "1 B", "7", false, ""⟩]⟩ :=
  ((c3_getExpired_characterization 10 ⟨[⟨"b1", 5, "p", "1 B", "7", false, ""⟩]⟩
      ⟨"b1", 5, "p", "1 B", "7", false, ""⟩).1).mpr
    (by refine ⟨by simp, rfl, by decide, 7, by decide, by decide⟩)

/-! ## Retention manager (retention.go) -/

/-- The retention part of the configuration consumed by the manager. -/
structure RetentionConfig where
  enabled : Bool
  days : Int
  minKeep : Int
deriving DecidableEq, Repr

/-- Filesystem oracle for `Cleanup`: directory sizes, whether
`os.RemoveAll` succeeds on a path, and whether `SaveIndex` succeeds. -/
structure CleanupEnv where
  backupPath : String
  dirSize : String → Int
  removeOk : String → Bool
  saveOk : Bool

/-- `CleanupResult` (retention.go). -/
structure CleanupResult where
  backupsDeleted : Nat
  spaceFreed : Int
  backupsKept : Int
  errors : List String
deriving DecidableEq, Repr

def idsOf (l : List IndexEntry) : List String := l.map (fun e => e.id)

/-- The non-checkpoint counting loop of `Cleanup`. -/
def nonCheckpointCount (l : List IndexEntry) : Nat :=
  List.countP (fun b => !b.checkpoint) l

/-- The selection loop of `Cleanup` (retention.go lines 65-75): walk the
expired list and add a candidate unless that would drop the surviving
non-checkpoint count to `min_keep` or below. -/
def selectToDelete (minKeep : Int) (n : Nat) (expired : List IndexEntry) : List IndexEntry :=
  expired.foldl
    (fun toDelete entry =>
      if (n : Int) - toDelete.length ≤ minKeep then toDelete else toDelete ++ [entry])
    []

/-- Running state of the deletion loop of `Cleanup` (lines 77-111). -/
structure DelState where
  backups : List IndexEntry
  deleted : Nat
  freed : Int
  errors : List String

/-- One iteration of the deletion loop: compute the size, then either
count it (dry run), or remove the directory and the index entry, or
record a warning when the directory removal fails. -/
def deleteStep (env : CleanupEnv) (dryRun : Bool) (st : DelState) (entry : IndexEntry) : DelState :=
  let path := joinPath env.backupPath entry.path
  let size := env.dirSize path
  if dryRun then
    { st with deleted := st.deleted + 1, freed := st.freed + size }
  else if env.removeOk path then
    { st with
        backups := removeList entry.id st.backups
        deleted := st.deleted + 1
        freed := st.freed + size }
  else
    { st with errors := st.errors ++ ["failed to delete " ++ entry.id] }

/-- The `toDelete` list computed by `Cleanup`: the expired entries are
walked in index order, `N` is counted over the sorted index. -/
def cleanupToDelete (cfg : RetentionConfig) (now : Nat) (idx : Index) : List IndexEntry :=
  selectToDelete cfg.minKeep (nonCheckpointCount (sortByDateDesc idx.backups))
    (GetExpired now idx)

/-- The state after the deletion loop of `Cleanup` has run over the
selected entries, starting from the freshly sorted index. -/
def cleanupLoop (cfg : RetentionConfig) (env : CleanupEnv) (now : Nat) (dryRun : Bool)
    (idx : Index) : DelState :=
  (cleanupToDelete cfg now idx).foldl (deleteStep env dryRun)
    ⟨sortByDateDesc idx.backups, 0, 0, []⟩

/-- `RetentionManager.Cleanup` (retention.go lines 33-129), returning the
result together with the final in-memory index.  `BackupsKept` is
computed, as in the source, as `len(index.Backups) - BackupsDeleted`
after the loop has already removed the deleted entries from the
in-memory index. -/
def Cleanup (cfg : RetentionConfig) (env : CleanupEnv) (now : Nat) (dryRun : Bool)
    (idx : Index) : CleanupResult × Index :=
  if cfg.enabled = false then (⟨0, 0, 0, []⟩, idx)
  else
    let st := cleanupLoop cfg env now dryRun idx
    let errors :=
      if dryRun = false ∧ 0 < st.deleted ∧ env.saveOk = false then
        st.errors ++ ["failed to update index"]
      else st.errors
    (⟨st.deleted, st.freed, (st.backups.length : Int) - (st.deleted : Int), errors⟩,
      ⟨st.backups⟩)

/-! ### Helper lemmas for the retention proofs -/

theorem selectToDelete_foldl (minKeep : Int) (n : Nat) :
    ∀ (l acc : List IndexEntry),
      l.foldl
          (fun toDelete entry =>
            if (n : Int) - toDelete.length ≤ minKeep then toDelete else toDelete ++ [entry])
          acc
        = acc ++ l.take (((n : Int) - minKeep).toNat - acc.length) := by
  intro l
  induction l with
  | nil => intro acc; simp
  | cons e rest ih =>
    intro acc
    by_cases h : (n : Int) - acc.length ≤ minKeep
    · have hz : ((n : Int) - minKeep).toNat - acc.length = 0 := by omega
      have hz2 : ((n : Int) - minKeep).toNat ≤ acc.length := by omega
      simp only [List.foldl_cons, if_pos h, ih acc, hz, List.take_zero, List.append_nil]
    · have hlt : acc.length < ((n : Int) - minKeep).toNat := by omega
      simp only [List.foldl_cons, if_neg h, ih (acc ++ [e])]
      have hk : ((n : Int) - minKeep).toNat - acc.length
          = (((n : Int) - minKeep).toNat - (acc ++ [e]).length) + 1 := by
        simp only [List.length_append, List.length_cons, List.length_nil]
        omega
      rw [hk, List.take_succ_cons, List.append_assoc]
      rfl

/-- `selectToDelete` takes an initial segment of the expired list. -/
theorem selectToDelete_eq_take (minKeep : Int) (n : Nat) (expired : List IndexEntry) :
    selectToDelete minKeep n expired = expired.take (((n : Int) - minKeep).toNat) := by
  unfold selectToDelete
  rw [selectToDelete_foldl]
  simp

theorem removeList_sublist (id : String) :
    ∀ l : List IndexEntry, List.Sublist (removeList id l) l := by
  intro l
  induction l with
  | nil => simp [removeList]
  | cons a rest ih =>
    by_cases h : a.id = id
    · simp only [removeList, if_pos h]
      exact (List.sublist_cons_self a rest)
    · simp only [removeList, if_neg h]
      exact List.Sublist.cons₂ a ih

theorem mem_removeList_of_ne (id : String) (x : IndexEntry) :
    ∀ l : List IndexEntry, x ∈ l → x.id ≠ id → x ∈ removeList id l := by
  intro l
  induction l with
  | nil => intro h; exact absurd h (List.not_mem_nil x)
  | cons a rest ih =>
    intro hx hne
    by_cases h : a.id = id
    · simp only [removeList, if_pos h]
      rcases List.mem_cons.mp hx with rfl | hx2
      · exact absurd h hne
      · exact hx2
    · simp only [removeList, if_neg h]
      rcases List.mem_cons.mp hx with rfl | hx2
      · exact List.mem_cons_self x (removeList id rest)
      · exact List.mem_cons_of_mem a (ih hx2 hne)

theorem length_removeList_of_mem (id : String) :
    ∀ l : List IndexEntry, (∃ x ∈ l, x.id = id) → (removeList id l).length + 1 = l.length := by
  intro l
  induction l with
  | nil => rintro ⟨x, hx, _⟩; exact absurd hx (List.not_mem_nil x)
  | cons a rest ih =>
    rintro ⟨x, hx, hxid⟩
    by_cases h : a.id = id
    · simp [removeList, if_pos h]
    · simp only [removeList, if_neg h, List.length_cons]
      rcases List.mem_cons.mp hx with rfl | hx2
      · exact absurd hxid h
      · rw [← ih ⟨x, hx2, hxid⟩]

theorem countP_removeList (p : IndexEntry → Bool) (e : IndexEntry) :
    ∀ l : List IndexEntry, (idsOf l).Nodup → e ∈ l →
      List.countP p (removeList e.id l) + (if p e then 1 else 0) = List.countP p l := by
  intro l
  induction l with
  | nil => intro _ h; exact absurd h (List.not_mem_nil e)
  | cons a rest ih =>
    intro hnd hmem
    have hnd2 := hnd
    rw [idsOf, List.map_cons, List.nodup_cons] at hnd2
    by_cases h : a.id = e.id
    · have hae : e = a := by
        rcases List.mem_cons.mp hmem with rfl | hmem2
        · rfl
        · exfalso
          exact hnd2.1 (h ▸ (List.mem_map_of_mem (fun x => x.id) hmem2))
      subst hae
      simp only [removeList, if_pos h, List.countP_cons]
      by_cases hp : p e
      · simp [hp]
      · simp [hp]
    · have hmem2 : e ∈ rest := by
        rcases List.mem_cons.mp hmem with rfl | hmem2
        · exact absurd rfl h
        · exact hmem2
      simp only [removeList, if_neg h, List.countP_cons]
      rw [← ih hnd2.2 hmem2]
      by_cases hp : p a
      · simp [hp]; omega
      · simp [hp]

theorem idsOf_removeList_nodup (id : String) (l : List IndexEntry)
    (h : (idsOf l).Nodup) : (idsOf (removeList id l)).Nodup := by
  unfold idsOf at h ⊢
  exact List.Nodup.sublist (List.Sublist.map (fun e => e.id) (removeList_sublist id l)) h

/-- The dry-run deletion loop never mutates the index and counts every
selected entry. -/
theorem deleteLoop_dry (env : CleanupEnv) :
    ∀ (sel : List IndexEntry) (st : DelState),
      (sel.foldl (deleteStep env true) st).backups = st.backups ∧
      (sel.foldl (deleteStep env true) st).deleted = st.deleted + sel.length := by
  intro sel
  induction sel with
  | nil => intro st; simp
  | cons e rest ih =>
    intro st
    have hstep : deleteStep env true st e =
        { st with
            deleted := st.deleted + 1
            freed := st.freed + env.dirSize (joinPath env.backupPath e.path) } := by
      simp [deleteStep]
    simp only [List.foldl_cons, hstep]
    rcases ih { st with
        deleted := st.deleted + 1
        freed := st.freed + env.dirSize (joinPath env.backupPath e.path) } with ⟨h1, h2⟩
    dsimp only at h1 h2
    refine ⟨h1, ?_⟩
    rw [h2]
    simp only [List.length_cons]
    omega

/-- The non-dry deletion loop: every selected entry whose directory
removal succeeds is removed from the index exactly once and counted. -/
theorem deleteLoop_spec (env : CleanupEnv) :
    ∀ (sel : List IndexEntry) (st : DelState),
      (idsOf st.backups).Nodup →
      (∀ e ∈ sel, e ∈ st.backups) →
      (idsOf sel).Nodup →
      ((sel.foldl (deleteStep env false) st).backups.length +
          (sel.filter (fun e => env.removeOk (joinPath env.backupPath e.path))).length
        = st.backups.length) ∧
      ((sel.foldl (deleteStep env false) st).deleted
        = st.deleted +
            (sel.filter (fun e => env.removeOk (joinPath env.backupPath e.path))).length) ∧
      (List.countP (fun b => !b.checkpoint) st.backups
        = List.countP (fun b => !b.checkpoint) (sel.foldl (deleteStep env false) st).backups +
            ((sel.filter (fun e => env.removeOk (joinPath env.backupPath e.path))).filter
                (fun e => !e.checkpoint)).length) := by
  intro sel
  induction sel with
  | nil => intro st _ _ _; simp
  | cons e rest ih =>
    intro st hnd hsub hselnd
    have hselnd2 := hselnd
    rw [idsOf, List.map_cons, List.nodup_cons] at hselnd2
    have hrest_ne : ∀ x ∈ rest, x.id ≠ e.id := by
      intro x hx hxe
      exact hselnd2.1 (hxe ▸ (List.mem_map_of_mem (fun y => y.id) hx))
    have hrestnd : (idsOf rest).Nodup := hselnd2.2
    have hmem : e ∈ st.backups := hsub e (List.mem_cons_self e rest)
    by_cases hok : env.removeOk (joinPath env.backupPath e.path) = true
    · have hstep : deleteStep env false st e =
          { st with
              backups := removeList e.id st.backups
              deleted := st.deleted + 1
              freed := st.freed + env.dirSize (joinPath env.backupPath e.path) } := by
        simp [deleteStep, hok]
      have hnd' : (idsOf (removeList e.id st.backups)).Nodup :=
        idsOf_removeList_nodup e.id st.backups hnd
      have hsub' : ∀ x ∈ rest, x ∈ removeList e.id st.backups := by
        intro x hx
        exact mem_removeList_of_ne e.id x st.backups
          (hsub x (List.mem_cons_of_mem e hx)) (hrest_ne x hx)
      have hlen : (removeList e.id st.backups).length + 1 = st.backups.length :=
        length_removeList_of_mem e.id st.backups ⟨e, hmem, rfl⟩
      have hcnt : List.countP (fun b => !b.checkpoint) (removeList e.id st.backups) +
          (if !e.checkpoint then 1 else 0) = List.countP (fun b => !b.checkpoint) st.backups :=
        countP_removeList (fun b => !b.checkpoint) e st.backups hnd hmem
      rcases ih { st with
          backups := removeList e.id st.backups
          deleted := st.deleted + 1
          freed := st.freed + env.dirSize (joinPath env.backupPath e.path) }
          hnd' hsub' hrestnd with ⟨ih1, ih2, ih3⟩
      dsimp only at ih1 ih2 ih3
      simp only [List.foldl_cons, hstep]
      simp only [List.filter_cons, hok, if_pos]
      refine ⟨?_, ?_, ?_⟩
      · simp only [List.length_cons]
        omega
      · simp only [List.length_cons]
        omega
      · by_cases hcp : (!e.checkpoint) = true
        · rw [if_pos hcp] at hcnt ⊢
          simp only [List.length_cons]
          omega
        · rw [if_neg hcp] at hcnt ⊢
          omega
    · have hstep : deleteStep env false st e =
          { st with errors := st.errors ++ ["failed to delete " ++ e.id] } := by
        simp [deleteStep, hok]
      have hsub' : ∀ x ∈ rest, x ∈ st.backups := by
        intro x hx
        exact hsub x (List.mem_cons_of_mem e hx)
      rcases ih { st with errors := st.errors ++ ["failed to delete " ++ e.id] }
          hnd hsub' hrestnd with ⟨ih1, ih2, ih3⟩
      simp only [List.foldl_cons, hstep]
      simp only [List.filter_cons, hok]
      simp only [Bool.false_eq_true, if_false]
      exact ⟨ih1, ih2, ih3⟩

theorem expiredPred_checkpoint (now : Nat) (e : IndexEntry)
    (h : expiredPred now e = true) : e.checkpoint = false := by
  unfold expiredPred at h
  by_cases hc : e.checkpoint = true
  · rw [if_pos hc] at h; exact absurd h (by simp)
  · simpa using hc

theorem sortByDateDesc_perm (l : List IndexEntry) : (sortByDateDesc l).Perm l :=
  List.perm_insertionSort _ l

theorem mem_getExpired_not_checkpoint (now : Nat) (idx : Index) (e : IndexEntry)
    (h : e ∈ GetExpired now idx) : e.checkpoint = false :=
  expiredPred_checkpoint now e (List.of_mem_filter h)

theorem cleanupToDelete_take (cfg : RetentionConfig) (now : Nat) (idx : Index) :
    cleanupToDelete cfg now idx
      = (GetExpired now idx).take
          (((nonCheckpointCount idx.backups : Int) - cfg.minKeep).toNat) := by
  unfold cleanupToDelete
  rw [selectToDelete_eq_take]
  have hN : nonCheckpointCount (sortByDateDesc idx.backups) = nonCheckpointCount idx.backups :=
    (sortByDateDesc_perm idx.backups).countP_eq _
  rw [hN]

theorem cleanupToDelete_sublist_expired (cfg : RetentionConfig) (now : Nat) (idx : Index) :
    List.Sublist (cleanupToDelete cfg now idx) (GetExpired now idx) := by
  rw [cleanupToDelete_take]
  exact List.take_sublist _ _

theorem cleanupToDelete_sublist (cfg : RetentionConfig) (now : Nat) (idx : Index) :
    List.Sublist (cleanupToDelete cfg now idx) idx.backups :=
  List.Sublist.trans (cleanupToDelete_sublist_expired cfg now idx)
    (List.filter_sublist idx.backups)

/-- Instantiation of the deletion-loop lemma at the actual starting state
of `Cleanup` (sorted fresh index, zero counters). -/
theorem cleanupLoop_false_facts (cfg : RetentionConfig) (env : CleanupEnv) (now : Nat)
    (idx : Index) (hnd : (idsOf idx.backups).Nodup) :
    ((cleanupLoop cfg env now false idx).backups.length +
        ((cleanupToDelete cfg now idx).filter
            (fun e => env.removeOk (joinPath env.backupPath e.path))).length
      = idx.backups.length) ∧
    ((cleanupLoop cfg env now false idx).deleted
      = ((cleanupToDelete cfg now idx).filter
            (fun e => env.removeOk (joinPath env.backupPath e.path))).length) ∧
    (nonCheckpointCount idx.backups
      = nonCheckpointCount (cleanupLoop cfg env now false idx).backups +
          (((cleanupToDelete cfg now idx).filter
              (fun e => env.removeOk (joinPath env.backupPath e.path))).filter
              (fun e => !e.checkpoint)).length) := by
  have hperm := sortByDateDesc_perm idx.backups
  have hnd0 : (idsOf (sortByDateDesc idx.backups)).Nodup := by
    unfold idsOf at hnd ⊢
    exact (List.Perm.nodup_iff (hperm.map (fun e => e.id))).mpr hnd
  have hsub : ∀ e ∈ cleanupToDelete cfg now idx, e ∈ sortByDateDesc idx.backups := by
    intro e he
    exact (hperm.mem_iff).mpr ((cleanupToDelete_sublist cfg now idx).subset he)
  have hselnd : (idsOf (cleanupToDelete cfg now idx)).Nodup := by
    unfold idsOf at hnd ⊢
    exact List.Nodup.sublist
      (List.Sublist.map (fun e => e.id) (cleanupToDelete_sublist cfg now idx)) hnd
  have h := deleteLoop_spec env (cleanupToDelete cfg now idx)
    ⟨sortByDateDesc idx.backups, 0, 0, []⟩ hnd0 hsub hselnd
  dsimp only at h
  rcases h with ⟨h1, h2, h3⟩
  have hlen : (sortByDateDesc idx.backups).length = idx.backups.length := hperm.length_eq
  have hcnt : List.countP (fun b => !b.checkpoint) (sortByDateDesc idx.backups)
      = List.countP (fun b => !b.checkpoint) idx.backups := hperm.countP_eq _
  unfold cleanupLoop nonCheckpointCount
  refine ⟨?_, ?_, ?_⟩
  · omega
  · omega
  · omega

theorem Cleanup_deleted (cfg : RetentionConfig) (env : CleanupEnv) (now : Nat) (dryRun : Bool)
    (idx : Index) (hen : cfg.enabled = true) :
    (Cleanup cfg env now dryRun idx).1.backupsDeleted
      = (cleanupLoop cfg env now dryRun idx).deleted := by
  simp [Cleanup, hen]

theorem Cleanup_kept (cfg : RetentionConfig) (env : CleanupEnv) (now : Nat) (dryRun : Bool)
    (idx : Index) (hen : cfg.enabled = true) :
    (Cleanup cfg env now dryRun idx).1.backupsKept
      = ((cleanupLoop cfg env now dryRun idx).backups.length : Int)
          - ((cleanupLoop cfg env now dryRun idx).deleted : Int) := by
  simp [Cleanup, hen]

theorem Cleanup_index (cfg : RetentionConfig) (env : CleanupEnv) (now : Nat) (dryRun : Bool)
    (idx : Index) (hen : cfg.enabled = true) :
    (Cleanup cfg env now dryRun idx).2 = ⟨(cleanupLoop cfg env now dryRun idx).backups⟩ := by
  simp [Cleanup, hen]

theorem cleanupLoop_dry (cfg : RetentionConfig) (env : CleanupEnv) (now : Nat) (idx : Index) :
    (cleanupLoop cfg env now true idx).backups = sortByDateDesc idx.backups ∧
    (cleanupLoop cfg env now true idx).deleted = (cleanupToDelete cfg now idx).length := by
  unfold cleanupLoop
  have h := deleteLoop_dry env (cleanupToDelete cfg now idx) ⟨sortByDateDesc idx.backups, 0, 0, []⟩
  dsimp only at h
  exact ⟨h.1, by rw [h.2]; omega⟩

/-! ## Claims C1 and C10 -/

/-- Scenario A of the spec: `retention.days = 30`, `min_keep = 5`, ten
non-checkpoint entries, each created 40 days before `now = 1000`, each
carrying `delete_after = created + 30 = 990`. -/
def scenarioAEntry (i : Nat) : IndexEntry :=
  ⟨"backup-" ++ Nat.repr i, 960, "p" ++ Nat.repr i, "1 B", "990", false, ""⟩

def scenarioAIndex : Index := ⟨(List.range 10).map scenarioAEntry⟩

def scenarioACfg : RetentionConfig := ⟨true, 30, 5⟩

def scenarioAEnv : CleanupEnv := ⟨"root", fun _ => 0, fun _ => true, true⟩

/-- C1: with retention enabled, the entries selected for deletion by
`Cleanup` are an initial segment of the expired list of length exactly
`min |E| (max 0 (N - min_keep))`, so (when every selected deletion
succeeds) at least `min min_keep N` non-checkpoint entries survive in
the resulting index; and in Scenario A (`days = 30`, `min_keep = 5`,
ten non-checkpoint entries 40 days old) the dry-run `Cleanup` reports
exactly 5 deletions. -/
theorem c1_cleanup_retention (cfg : RetentionConfig) (env : CleanupEnv) (now : Nat)
    (idx : Index)
    (hen : cfg.enabled = true)
    (hnd : (idsOf idx.backups).Nodup)
    (hok : ∀ e ∈ cleanupToDelete cfg now idx,
        env.removeOk (joinPath env.backupPath e.path) = true) :
    (∃ rest, cleanupToDelete cfg now idx ++ rest = GetExpired now idx) ∧
    (cleanupToDelete cfg now idx).length
      = min (GetExpired now idx).length
          (((nonCheckpointCount idx.backups : Int) - cfg.minKeep).toNat) ∧
    min cfg.minKeep (nonCheckpointCount idx.backups : Int)
      ≤ (nonCheckpointCount (Cleanup cfg env now false idx).2.backups : Int) ∧
    (Cleanup scenarioACfg scenarioAEnv 1000 true scenarioAIndex).1.backupsDeleted = 5 := by
  have htake := cleanupToDelete_take cfg now idx
  have hlen_sel : (cleanupToDelete cfg now idx).length
      = min (GetExpired now idx).length
          (((nonCheckpointCount idx.backups : Int) - cfg.minKeep).toNat) := by
    rw [htake, List.length_take, Nat.min_comm]
  refine ⟨⟨(GetExpired now idx).drop
      (((nonCheckpointCount idx.backups : Int) - cfg.minKeep).toNat), ?_⟩, hlen_sel, ?_, ?_⟩
  · rw [htake]
    exact List.take_append_drop _ _
  · have hfacts := cleanupLoop_false_facts cfg env now idx hnd
    have hfe : (cleanupToDelete cfg now idx).filter
        (fun e => env.removeOk (joinPath env.backupPath e.path)) = cleanupToDelete cfg now idx :=
      List.filter_eq_self.mpr hok
    have hcp : (cleanupToDelete cfg now idx).filter (fun e => !e.checkpoint)
        = cleanupToDelete cfg now idx := by
      refine List.filter_eq_self.mpr ?_
      intro e he
      have hE : e ∈ GetExpired now idx :=
        (cleanupToDelete_sublist_expired cfg now idx).subset he
      rw [mem_getExpired_not_checkpoint now idx e hE]
      rfl
    rw [hfe, hcp] at hfacts
    rcases hfacts with ⟨_, _, h3⟩
    rw [Cleanup_index cfg env now false idx hen]
    have hsel := hlen_sel
    dsimp only
    omega
  · decide

def c1wEnv : CleanupEnv := ⟨"r", fun _ => 0, fun _ => true, true⟩

/-- Witness for C1 at an empty index. -/
theorem c1_witness :
    min ((5 : Int)) ((nonCheckpointCount (⟨[]⟩ : Index).backups : Int))
      ≤ (nonCheckpointCount (Cleanup ⟨true, 30, 5⟩ c1wEnv 0 false ⟨[]⟩).2.backups : Int) :=
  (c1_cleanup_retention ⟨true, 30, 5⟩ c1wEnv 0 ⟨[]⟩ rfl (by simp [idsOf])
    (by intro e he; simp [cleanupToDelete, selectToDelete, GetExpired] at he)).2.2.1

/-- C10: after a retention-enabled `Cleanup`, `BackupsKept` equals
`n - 2d` for a non-dry run (the `d` deleted entries are already gone
from the in-memory index when `len(index.Backups) - BackupsDeleted` is
computed) but `n - d` for a dry run, where `n` is the initial index
size and `d` the reported deletion count. -/
theorem c10_backupsKept (cfg : RetentionConfig) (env : CleanupEnv) (now : Nat) (idx : Index)
    (hen : cfg.enabled = true) (hnd : (idsOf idx.backups).Nodup) :
    ((Cleanup cfg env now false idx).1.backupsKept
        = (idx.backups.length : Int)
            - 2 * ((Cleanup cfg env now false idx).1.backupsDeleted : Int)) ∧
    ((Cleanup cfg env now true idx).1.backupsKept
        = (idx.backups.length : Int)
            - ((Cleanup cfg env now true idx).1.backupsDeleted : Int)) := by
  constructor
  · rw [Cleanup_kept cfg env now false idx hen, Cleanup_deleted cfg env now false idx hen]
    rcases cleanupLoop_false_facts cfg env now idx hnd with ⟨h1, h2, _⟩
    omega
  · rw [Cleanup_kept cfg env now true idx hen, Cleanup_deleted cfg env now true idx hen]
    rcases cleanupLoop_dry cfg env now idx with ⟨h1, h2⟩
    have hlen : (sortByDateDesc idx.backups).length = idx.backups.length :=
      (sortByDateDesc_perm idx.backups).length_eq
    rw [h1, h2] at *
    omega

def c10wEnv : CleanupEnv := ⟨"r", fun _ => 0, fun _ => true, true⟩

def c10wIdx : Index := ⟨[⟨"b1", 5, "p", "1 B", "7", false, ""⟩]⟩

/-- Witness for C10 at a one-entry index whose entry is expired and is
deleted (so the non-dry `BackupsKept` is `1 - 2 = -1`). -/
theorem c10_witness :
    ((Cleanup ⟨true, 30, 0⟩ c10wEnv 10 false c10wIdx).1.backupsKept
        = (c10wIdx.backups.length : Int)
            - 2 * ((Cleanup ⟨true, 30, 0⟩ c10wEnv 10 false c10wIdx).1.backupsDeleted : Int)) ∧
    ((Cleanup ⟨true, 30, 0⟩ c10wEnv 10 true c10wIdx).1.backupsKept
        = (c10wIdx.backups.length : Int)
            - ((Cleanup ⟨true, 30, 0⟩ c10wEnv 10 true c10wIdx).1.backupsDeleted : Int)) :=
  c10_backupsKept ⟨true, 30, 0⟩ c10wEnv 10 c10wIdx rfl (by simp [idsOf, c10wIdx])

/-! ## Index mutations and the checkpoint invariant (C2) -/

/-- `BackupOptions` (streaming.go). -/
structure BackupOptions where
  note : String
  checkpoint : Bool
  dryRun : Bool
  selectedWebapps : List String
  selectedCustom : List String
deriving DecidableEq, Repr

/-- The index entry committed by `Run` (streaming.go lines 1059-1071):
the entry starts with an empty `DeleteAfter`, which is then set to
`start + retention.days` only for non-checkpoint runs with retention
enabled and positive `days`. -/
def mkRunEntry (opts : BackupOptions) (retention : RetentionConfig) (id : String)
    (startTime : Nat) (relPath : String) (size : String) : IndexEntry :=
  { id := id
    date := startTime
    path := relPath
    size := size
    checkpoint := opts.checkpoint
    note := opts.note
    deleteAfter :=
      (if opts.checkpoint = false ∧ retention.enabled = true ∧ 0 < retention.days then
        formatDate (addDays startTime retention.days)
      else "") }

/-- `RetentionManager.ExtendRetention` body (retention.go lines 279-310):
the first entry with the given id is updated; checkpoints are refused;
the new date extends the parsed old one, falling back to `now + days`. -/
def extendList (id : String) (days : Int) (now : Nat) :
    List IndexEntry → Except String (List IndexEntry)
  | [] => .error ("backup not found: " ++ id)
  | e :: rest =>
    if e.id = id then
      if e.checkpoint then .error "checkpoint backups have no expiration dates"
      else
        let newDate :=
          (if e.deleteAfter ≠ "" then
            match parseDate e.deleteAfter with
            | some d => addDays d days
            | none => addDays now days
          else addDays now days)
        .ok ({ e with deleteAfter := formatDate newDate } :: rest)
    else
      match extendList id days now rest with
      | .ok r => .ok (e :: r)
      | .error m => .error m

/-- The data-model invariant: a checkpoint entry never carries a
`delete_after` date. -/
def IndexInv (l : List IndexEntry) : Prop :=
  ∀ e ∈ l, e.checkpoint = true → e.deleteAfter = ""

/-- C2: every index mutation — the orchestrator appending the entry it
commits in `Run`, `MarkAsCheckpoint`, `ExtendRetention`, and the
retention deletion `RemoveEntry` — preserves the invariant
`checkpoint = true → delete_after = ""`; in particular the entry of a
checkpoint run is created with an empty `delete_after`. -/
theorem c2_checkpoint_invariant :
    (∀ (idx : Index) (opts : BackupOptions) (cfg : RetentionConfig) (id : String)
        (t : Nat) (rel size : String),
      IndexInv idx.backups →
        IndexInv (addEntry idx (mkRunEntry opts cfg id t rel size)).backups) ∧
    (∀ (opts : BackupOptions) (cfg : RetentionConfig) (id : String) (t : Nat)
        (rel size : String),
      opts.checkpoint = true → (mkRunEntry opts cfg id t rel size).deleteAfter = "") ∧
    (∀ (l : List IndexEntry) (id note : String),
      IndexInv l → IndexInv (markList id note l).1) ∧
    (∀ (l : List IndexEntry) (id : String) (days : Int) (now : Nat) (l2 : List IndexEntry),
      IndexInv l → extendList id days now l = .ok l2 → IndexInv l2) ∧
    (∀ (l : List IndexEntry) (id : String),
      IndexInv l → IndexInv (removeList id l)) := by
  refine ⟨?_, ?_, ?_, ?_, ?_⟩
  · intro idx opts cfg id t rel size hinv e he hcp
    unfold addEntry at he
    rcases List.mem_append.mp he with h | h
    · exact hinv e h hcp
    · have he2 : e = mkRunEntry opts cfg id t rel size := by simpa using h
      subst he2
      simp only [mkRunEntry] at hcp ⊢
      rw [if_neg (by simp [hcp])]
  · intro opts cfg id t rel size hcp
    simp only [mkRunEntry]
    rw [if_neg (by simp [hcp])]
  · intro l
    induction l with
    | nil => intro id note _ e he; exact absurd he (List.not_mem_nil e)
    | cons a rest ih =>
      intro id note hinv e he hcp
      by_cases h : a.id = id
      · simp only [markList, if_pos h] at he
        rcases List.mem_cons.mp he with rfl | h2
        · rfl
        · exact hinv e (List.mem_cons_of_mem a h2) hcp
      · simp only [markList, if_neg h] at he
        rcases List.mem_cons.mp he with rfl | h2
        · exact hinv e (List.mem_cons_self e rest) hcp
        · exact ih id note (fun x hx => hinv x (List.mem_cons_of_mem a hx)) e h2 hcp
  · intro l
    induction l with
    | nil =>
      intro id days now l2 _ hok
      exact absurd hok (by simp [extendList])
    | cons a rest ih =>
      intro id days now l2 hinv hok
      by_cases h : a.id = id
      · simp only [extendList, if_pos h] at hok
        by_cases hcp : a.checkpoint = true
        · rw [if_pos hcp] at hok
          exact absurd hok (by simp)
        · rw [if_neg hcp] at hok
          have hl2 := Except.ok.inj hok.symm
          intro e he hecp
          rw [hl2] at he
          rcases List.mem_cons.mp he with rfl | h2
          · exact absurd hecp (by simpa using hcp)
          · exact hinv e (List.mem_cons_of_mem a h2) hecp
      · simp only [extendList, if_neg h] at hok
        rcases hrec : extendList id days now rest with m | r
        · rw [hrec] at hok
          exact absurd hok (by simp)
        · rw [hrec] at hok
          have hl2 := Except.ok.inj hok.symm
          intro e he hecp
          rw [hl2] at he
          rcases List.mem_cons.mp he with rfl | h2
          · exact hinv e (List.mem_cons_self e rest) hecp
          · exact ih id days now r
              (fun x hx => hinv x (List.mem_cons_of_mem a hx)) hrec e h2 hecp
  · intro l id hinv e he hcp
    exact hinv e ((removeList_sublist id l).subset he) hcp

/-- Witness for C2: the invariant holds after removing from the empty
index. -/
theorem c2_witness : IndexInv (removeList "a" []) :=
  c2_checkpoint_invariant.2.2.2.2 [] "a" (fun e he => absurd he (List.not_mem_nil e))

/-! ## Backup orchestrator `Run` (streaming.go lines 857-1090) -/

/-- `FormatSize` stand-in: exact for sizes below 1024 bytes ("%d B");
for larger sizes the Go original renders a float, which no claim
depends on, so the codec keeps the byte count. -/
def formatSize (bytes : Int) : String := Int.repr bytes ++ " B"

/-- The per-unit `StreamingResult` fields consumed by `Run`. -/
structure CompressOutcome where
  originalSize : Int
  compressedSize : Int
  filesProcessed : Nat
  errors : List String
deriving DecidableEq, Repr

/-- `CustomFolderInfo` (streaming.go): `existsOnDisk` models `Exists`. -/
structure CustomFolderInfo where
  title : String
  path : String
  required : Bool
  existsOnDisk : Bool
deriving DecidableEq, Repr

/-- `BackupResult` (streaming.go), restricted to the fields the claims
mention (timing fields carry no logic). -/
structure BackupResult where
  id : String
  path : String
  filesProcessed : Nat
  originalSize : Int
  compressedSize : Int
  errors : List String
  success : Bool
deriving DecidableEq, Repr

/-- Environment oracle for `Run`: configuration, discovered units, and
the outcome of every filesystem / compressor call it makes. -/
structure RunEnv where
  compressorAvailable : Bool
  backupRoot : String
  dateFolder : String
  timeFolder : String
  backupId : String
  startTime : Nat
  mkdirOk : Bool
  configWebapps : List String
  availOk : Bool
  availableWebapps : List String
  webappExists : String → Bool
  compressWebapp : String → Except String CompressOutcome
  customFolders : List CustomFolderInfo
  compressCustom : String → Except String CompressOutcome
  metadataOk : Bool
  loadIndexOk : Bool
  loadedIndex : Index
  saveIndexOk : Bool
  retention : RetentionConfig
  relPath : String

/-- The destination directory of the run: checkpoints use
`<date>_<sanitized note or "checkpoint">`, regular runs `<date>/<time>`. -/
def runBackupPath (env : RunEnv) (opts : BackupOptions) : String :=
  if opts.checkpoint then
    joinPath env.backupRoot
      (env.dateFolder ++ "_" ++
        (if sanitizeFolderName opts.note = "" then "checkpoint"
         else sanitizeFolderName opts.note))
  else joinPath (joinPath env.backupRoot env.dateFolder) env.timeFolder

/-- Resolution of the webapp set (lines 900-916): explicit selection,
else the configured list, else everything discovered on disk. -/
def resolveWebapps (env : RunEnv) (opts : BackupOptions) : Except String (List String) :=
  if opts.selectedWebapps ≠ [] then .ok opts.selectedWebapps
  else if env.configWebapps ≠ [] then .ok env.configWebapps
  else if env.availOk then .ok env.availableWebapps
  else .error "failed to get available webapps"

def runInit (env : RunEnv) (opts : BackupOptions) : BackupResult :=
  ⟨env.backupId, runBackupPath env opts, 0, 0, 0, [], false⟩

/-- One iteration of the webapp loop (lines 929-967): a missing webapp
or a failed unit is recorded and skipped; a successful unit adds its
counters and its own non-fatal errors. -/
def webappStep (env : RunEnv) (res : BackupResult) (name : String) : BackupResult :=
  if env.webappExists name = false then
    { res with errors := res.errors ++ ["webapp not found: " ++ name] }
  else
    match env.compressWebapp name with
    | .error msg => { res with errors := res.errors ++ [name ++ ": " ++ msg] }
    | .ok c =>
      { res with
          filesProcessed := res.filesProcessed + c.filesProcessed
          originalSize := res.originalSize + c.originalSize
          compressedSize := res.compressedSize + c.compressedSize
          errors := res.errors ++ c.errors }

/-- One iteration of the custom-folder loop (lines 973-1022): unselected
folders are skipped, a missing required folder is an error, and — unlike
the webapp loop — a successful unit only adds counters (its non-fatal
error list is not merged). -/
def customStep (env : RunEnv) (opts : BackupOptions) (res : BackupResult)
    (folder : CustomFolderInfo) : BackupResult :=
  if opts.selectedCustom ≠ [] ∧ folder.title ∉ opts.selectedCustom then res
  else if folder.existsOnDisk = false then
    (if folder.required then
      { res with errors := res.errors ++ ["required folder not found: " ++ folder.title] }
    else res)
  else
    match env.compressCustom folder.title with
    | .error msg => { res with errors := res.errors ++ [folder.title ++ ": " ++ msg] }
    | .ok c =>
      { res with
          filesProcessed := res.filesProcessed + c.filesProcessed
          originalSize := res.originalSize + c.originalSize
          compressedSize := res.compressedSize + c.compressedSize }

def addErrIf (b : Bool) (msg : String) (res : BackupResult) : BackupResult :=
  if b then { res with errors := res.errors ++ [msg] } else res

/-- Result after the two unit loops (phases 2 and 3). -/
def runPhase23 (env : RunEnv) (opts : BackupOptions) (webapps : List String) : BackupResult :=
  env.customFolders.foldl (customStep env opts) (webapps.foldl (webappStep env) (runInit env opts))

/-- Result after the metadata write and the index save (phases 4 and 5),
each of which records an error on failure without aborting. -/
def runPhase45 (env : RunEnv) (opts : BackupOptions) (webapps : List String) : BackupResult :=
  addErrIf (!env.saveIndexOk) "index error"
    (addErrIf (!env.metadataOk) "metadata error" (runPhase23 env opts webapps))

/-- The index as committed by phase 5: loaded fresh (an unreadable index
is replaced by an empty one) with the new entry appended. -/
def runCommittedIndex (env : RunEnv) (opts : BackupOptions) (webapps : List String) : Index :=
  addEntry (if env.loadIndexOk then env.loadedIndex else ⟨[]⟩)
    (mkRunEntry opts env.retention env.backupId env.startTime env.relPath
      (formatSize (runPhase23 env opts webapps).compressedSize))

structure RunOutcome where
  result : BackupResult
  savedIndex : Option Index
deriving DecidableEq, Repr

/-- `Backup.Run` (streaming.go lines 857-1090): fatal errors are an
unavailable compressor, a failed directory creation, and a failed webapp
discovery; a dry run returns right after unit resolution with
`Success = true`; otherwise `Success = len(Errors) == 0`. -/
def Run (env : RunEnv) (opts : BackupOptions) : Except String RunOutcome :=
  if env.compressorAvailable = false then .error "compressor not available"
  else if env.mkdirOk = false then .error "failed to create backup directory"
  else
    match resolveWebapps env opts with
    | .error msg => .error msg
    | .ok webapps =>
      if opts.dryRun then .ok ⟨{ runInit env opts with success := true }, none⟩
      else
        .ok ⟨{ runPhase45 env opts webapps with
                 success := (runPhase45 env opts webapps).errors.isEmpty },
             (if env.saveIndexOk then some (runCommittedIndex env opts webapps) else none)⟩

/-! ## Claim C9 -/

/-- C9: whenever `Run` returns a `BackupResult` (dry runs included), the
`Success` flag is true exactly when the collected error list is empty. -/
theorem c9_success_iff_no_errors (env : RunEnv) (opts : BackupOptions) (out : RunOutcome)
    (h : Run env opts = .ok out) :
    (out.result.success = true ↔ out.result.errors = []) := by
  unfold Run at h
  by_cases hav : env.compressorAvailable = false
  · rw [if_pos hav] at h
    exact absurd h (by simp)
  · rw [if_neg hav] at h
    by_cases hmk : env.mkdirOk = false
    · rw [if_pos hmk] at h
      exact absurd h (by simp)
    · rw [if_neg hmk] at h
      rcases hrw : resolveWebapps env opts with msg | webapps
      · rw [hrw] at h
        exact absurd h (by simp)
      · rw [hrw] at h
        dsimp only at h
        by_cases hdr : opts.dryRun = true
        · rw [if_pos hdr] at h
          have hout := Except.ok.inj h
          rw [← hout]
          simp [runInit]
        · rw [if_neg hdr] at h
          have hout := Except.ok.inj h
          rw [← hout]
          dsimp only
          rcases hxe : (runPhase45 env opts webapps).errors with _ | ⟨a, rest⟩
          · simp [hxe]
          · simp [hxe]

def c9wEnv : RunEnv :=
  ⟨true, "root", "d", "t", "id", 0, true, [], true, [], fun _ => true,
   fun _ => .ok ⟨0, 0, 0, []⟩, [], fun _ => .ok ⟨0, 0, 0, []⟩, true, true, ⟨[]⟩, true,
   ⟨true, 30, 5⟩, "rel"⟩

def c9wOpts : BackupOptions := ⟨"", false, true, ["w"], []⟩

def c9wOut : RunOutcome := ⟨⟨"id", "root/d/t", 0, 0, 0, [], true⟩, none⟩

/-- Witness for C9 on a concrete dry run. -/
theorem c9_witness : (c9wOut.result.success = true ↔ c9wOut.result.errors = []) :=
  c9_success_iff_no_errors c9wEnv c9wOpts c9wOut (by rfl)

/-! ## Restore engine: archive-name recognition (streaming.go lines 1139-1162) -/

/-- Model of `filepath.Ext`: the suffix beginning at the final dot of
the name, or `""` when there is no dot.  `extAfterLastDot` returns the
characters after the last dot. -/
def extAfterLastDot : List Char → Option (List Char)
  | [] => none
  | c :: cs =>
    match extAfterLastDot cs with
    | some m => some m
    | none => if c = '.' then some cs else none

def fileExt (s : String) : String :=
  match extAfterLastDot s.data with
  | some m => String.mk ('.' :: m)
  | none => ""

/-- Model of the Go slice `name[:len(name)-n]` (ASCII-faithful). -/
def dropLastChars (s : String) (n : Nat) : String :=
  String.mk (s.data.take (s.data.length - n))

/-- The `archiveExts` set of `Restore`. -/
def archiveExts : List String := [".tar.zst", ".tar.gz", ".tgz", ".7z", ".zip"]

/-- The double-extension resolution of `Restore` (lines 1148-1158):
a final `.zst` or `.gz` preceded by `.tar` is widened to the double
suffix. -/
def resolveArchiveExt (name : String) : String :=
  if fileExt name = ".zst" ∨ fileExt name = ".gz" then
    (if fileExt (dropLastChars name (fileExt name).data.length) = ".tar" then
      fileExt (dropLastChars name (fileExt name).data.length) ++ fileExt name
    else fileExt name)
  else fileExt name

def isArchiveName (name : String) : Bool :=
  archiveExts.contains (resolveArchiveExt name)

theorem extAfterLastDot_eq_none (l : List Char) (h : '.' ∉ l) :
    extAfterLastDot l = none := by
  induction l with
  | nil => rfl
  | cons c cs ih =>
    have hc : ¬(c = '.') := fun hcc => h (hcc ▸ List.mem_cons_self c cs)
    have hcs : '.' ∉ cs := fun hm => h (List.mem_cons_of_mem c hm)
    simp only [extAfterLastDot, ih hcs, if_neg hc]

theorem extAfterLastDot_append (m : List Char) (hm : '.' ∉ m) :
    ∀ l : List Char, extAfterLastDot (l ++ '.' :: m) = some m := by
  intro l
  induction l with
  | nil =>
    rw [List.nil_append]
    unfold extAfterLastDot
    rw [extAfterLastDot_eq_none m hm]
    simp
  | cons c cs ih =>
    rw [List.cons_append]
    unfold extAfterLastDot
    rw [ih]

theorem extAfterLastDot_spec :
    ∀ l : List Char,
      (extAfterLastDot l = none ∧ '.' ∉ l) ∨
      (∃ base m, extAfterLastDot l = some m ∧ l = base ++ '.' :: m ∧ '.' ∉ m) := by
  intro l
  induction l with
  | nil => exact Or.inl ⟨rfl, List.not_mem_nil '.'⟩
  | cons c cs ih =>
    rcases ih with ⟨hn, hm⟩ | ⟨base, m, hs, heq, hnm⟩
    · by_cases hc : c = '.'
      · refine Or.inr ⟨[], cs, ?_, by rw [hc]; rfl, hm⟩
        simp only [extAfterLastDot, hn, if_pos hc]
      · refine Or.inl ⟨?_, ?_⟩
        · simp only [extAfterLastDot, hn, if_neg hc]
        · intro hmem
          rcases List.mem_cons.mp hmem with h | h
          · exact hc h.symm
          · exact hm h
    · refine Or.inr ⟨c :: base, m, ?_, by rw [heq]; rfl, hnm⟩
      simp only [extAfterLastDot, hs]

/-- `fileExt` of a name ending in `"." ++ m` (with `m` dot-free) is that
final extension, whatever stands before it. -/
theorem fileExt_of_suffix (s : String) (base m : List Char)
    (h : s.data = base ++ '.' :: m) (hm : '.' ∉ m) :
    fileExt s = String.mk ('.' :: m) := by
  unfold fileExt
  rw [h, extAfterLastDot_append m hm]

theorem fileExt_eq_empty (s : String) (h : extAfterLastDot s.data = none) :
    fileExt s = "" := by
  unfold fileExt; rw [h]

theorem fileExt_eq_mk (s : String) (m : List Char) (h : extAfterLastDot s.data = some m) :
    fileExt s = String.mk ('.' :: m) := by
  unfold fileExt; rw [h]

theorem hasSuffix_intro (s suf : String) (t : List Char) (h : s.data = t ++ suf.data) :
    hasSuffix s suf = true := by
  unfold hasSuffix
  exact List.isSuffixOf_iff_suffix.mpr ⟨t, h.symm⟩

theorem hasSuffix_elim (s suf : String) (h : hasSuffix s suf = true) :
    ∃ t, s.data = t ++ suf.data := by
  unfold hasSuffix at h
  rcases List.isSuffixOf_iff_suffix.mp h with ⟨t, ht⟩
  exact ⟨t, ht.symm⟩

/-- The file-selection test of `Restore` recognizes exactly the names
ending in one of the five archive suffixes, the double suffixes
included. -/
theorem isArchiveName_iff (name : String) :
    isArchiveName name = true ↔
      (hasSuffix name ".tar.zst" = true ∨ hasSuffix name ".tar.gz" = true ∨
       hasSuffix name ".tgz" = true ∨ hasSuffix name ".7z" = true ∨
       hasSuffix name ".zip" = true) := by
  constructor
  · intro h
    unfold isArchiveName resolveArchiveExt at h
    rcases extAfterLastDot_spec name.data with ⟨hn, _⟩ | ⟨base, m, hs, hdata, hm⟩
    · have hfe : fileExt name = "" := fileExt_eq_empty name hn
      rw [hfe, if_neg (by decide)] at h
      exact absurd h (by decide)
    · have hfe : fileExt name = String.mk ('.' :: m) := fileExt_eq_mk name m hs
      by_cases hz : fileExt name = ".zst" ∨ fileExt name = ".gz"
      · rw [if_pos hz] at h
        by_cases ht : fileExt (dropLastChars name (fileExt name).data.length) = ".tar"
        · rcases extAfterLastDot_spec (dropLastChars name (fileExt name).data.length).data with
            ⟨hn2, _⟩ | ⟨base2, m2, hs2, hdata2, _⟩
          · have hfb0 : fileExt (dropLastChars name (fileExt name).data.length) = "" :=
              fileExt_eq_empty _ hn2
            rw [hfb0] at ht
            exact absurd ht (by decide)
          · have hfb : fileExt (dropLastChars name (fileExt name).data.length)
                = String.mk ('.' :: m2) := fileExt_eq_mk _ m2 hs2
            have hm2 : m2 = ['t', 'a', 'r'] := by
              have h2 : '.' :: m2 = (".tar" : String).data :=
                congrArg String.data (hfb.symm.trans ht)
              injection h2
            rcases hz with hz | hz
            · have hm1 : m = ['z', 's', 't'] := by
                have h2 : '.' :: m = (".zst" : String).data :=
                  congrArg String.data (hfe.symm.trans hz)
                injection h2
              have hname : name.data = base ++ ['.', 'z', 's', 't'] := by
                rw [hdata, hm1]
              have hbd : (dropLastChars name (fileExt name).data.length).data = base := by
                rw [hz]
                show (name.data.take (name.data.length - 4)) = base
                rw [hname]
                have hl : (base ++ ['.', 'z', 's', 't']).length - 4 = base.length := by
                  simp [List.length_append]
                rw [hl, List.take_left]
              have hbase : base = base2 ++ '.' :: ['t', 'a', 'r'] := by
                rw [← hbd, hdata2, hm2]
              refine Or.inl (hasSuffix_intro name ".tar.zst" base2 ?_)
              rw [hname, hbase, List.append_assoc]
              rfl
            · have hm1 : m = ['g', 'z'] := by
                have h2 : '.' :: m = (".gz" : String).data :=
                  congrArg String.data (hfe.symm.trans hz)
                injection h2
              have hname : name.data = base ++ ['.', 'g', 'z'] := by
                rw [hdata, hm1]
              have hbd : (dropLastChars name (fileExt name).data.length).data = base := by
                rw [hz]
                show (name.data.take (name.data.length - 3)) = base
                rw [hname]
                have hl : (base ++ ['.', 'g', 'z']).length - 3 = base.length := by
                  simp [List.length_append]
                rw [hl, List.take_left]
              have hbase : base = base2 ++ '.' :: ['t', 'a', 'r'] := by
                rw [← hbd, hdata2, hm2]
              refine Or.inr (Or.inl (hasSuffix_intro name ".tar.gz" base2 ?_))
              rw [hname, hbase, List.append_assoc]
              rfl
        · rw [if_neg ht] at h
          rcases hz with hz | hz <;> rw [hz] at h <;> exact absurd h (by decide)
      · rw [if_neg hz] at h
        simp [archiveExts] at h
        rcases h with h | h | h | h | h
        · exfalso
          have h2 : '.' :: m = (".tar.zst" : String).data :=
            congrArg String.data (hfe.symm.trans h)
          have h3 : '.' ∈ m := by
            have h4 : m = ['t', 'a', 'r', '.', 'z', 's', 't'] := by injection h2
            rw [h4]; decide
          exact hm h3
        · exfalso
          have h2 : '.' :: m = (".tar.gz" : String).data :=
            congrArg String.data (hfe.symm.trans h)
          have h3 : '.' ∈ m := by
            have h4 : m = ['t', 'a', 'r', '.', 'g', 'z'] := by injection h2
            rw [h4]; decide
          exact hm h3
        · refine Or.inr (Or.inr (Or.inl (hasSuffix_intro name ".tgz" base ?_)))
          have h4 : m = ['t', 'g', 'z'] := by
            have h2 : '.' :: m = (".tgz" : String).data :=
              congrArg String.data (hfe.symm.trans h)
            injection h2
          rw [hdata, h4]
        · refine Or.inr (Or.inr (Or.inr (Or.inl (hasSuffix_intro name ".7z" base ?_))))
          have h4 : m = ['7', 'z'] := by
            have h2 : '.' :: m = (".7z" : String).data :=
              congrArg String.data (hfe.symm.trans h)
            injection h2
          rw [hdata, h4]
        · refine Or.inr (Or.inr (Or.inr (Or.inr (hasSuffix_intro name ".zip" base ?_))))
          have h4 : m = ['z', 'i', 'p'] := by
            have h2 : '.' :: m = (".zip" : String).data :=
              congrArg String.data (hfe.symm.trans h)
            injection h2
          rw [hdata, h4]
  · intro h
    rcases h with h | h | h | h | h
    · rcases hasSuffix_elim name ".tar.zst" h with ⟨t, ht⟩
      have hdata : name.data = (t ++ ['.', 't', 'a', 'r']) ++ '.' :: ['z', 's', 't'] := by
        rw [ht, List.append_assoc]
        rfl
      have hfe : fileExt name = ".zst" :=
        fileExt_of_suffix name (t ++ ['.', 't', 'a', 'r']) ['z', 's', 't'] hdata (by decide)
      have hfb : fileExt (dropLastChars name (".zst" : String).data.length) = ".tar" := by
        show fileExt (dropLastChars name 4) = ".tar"
        refine fileExt_of_suffix (dropLastChars name 4) t ['t', 'a', 'r'] ?_ (by decide)
        show (name.data.take (name.data.length - 4)) = t ++ '.' :: ['t', 'a', 'r']
        rw [hdata]
        have hl : ((t ++ ['.', 't', 'a', 'r']) ++ '.' :: ['z', 's', 't']).length - 4
            = (t ++ ['.', 't', 'a', 'r']).length := by
          simp [List.length_append]
        rw [hl, List.take_left]
      unfold isArchiveName resolveArchiveExt
      rw [hfe, if_pos (by decide : (".zst" : String) = ".zst" ∨ (".zst" : String) = ".gz"),
        hfb]
      decide
    · rcases hasSuffix_elim name ".tar.gz" h with ⟨t, ht⟩
      have hdata : name.data = (t ++ ['.', 't', 'a', 'r']) ++ '.' :: ['g', 'z'] := by
        rw [ht, List.append_assoc]
        rfl
      have hfe : fileExt name = ".gz" :=
        fileExt_of_suffix name (t ++ ['.', 't', 'a', 'r']) ['g', 'z'] hdata (by decide)
      have hfb : fileExt (dropLastChars name (".gz" : String).data.length) = ".tar" := by
        show fileExt (dropLastChars name 3) = ".tar"
        refine fileExt_of_suffix (dropLastChars name 3) t ['t', 'a', 'r'] ?_ (by decide)
        show (name.data.take (name.data.length - 3)) = t ++ '.' :: ['t', 'a', 'r']
        rw [hdata]
        have hl : ((t ++ ['.', 't', 'a', 'r']) ++ '.' :: ['g', 'z']).length - 3
            = (t ++ ['.', 't', 'a', 'r']).length := by
          simp [List.length_append]
        rw [hl, List.take_left]
      unfold isArchiveName resolveArchiveExt
      rw [hfe, if_pos (by decide : (".gz" : String) = ".zst" ∨ (".gz" : String) = ".gz"),
        hfb]
      decide
    · rcases hasSuffix_elim name ".tgz" h with ⟨t, ht⟩
      have hfe : fileExt name = ".tgz" :=
        fileExt_of_suffix name t ['t', 'g', 'z'] (by rw [ht]) (by decide)
      unfold isArchiveName resolveArchiveExt
      rw [hfe, if_neg (by decide)]
      decide
    · rcases hasSuffix_elim name ".7z" h with ⟨t, ht⟩
      have hfe : fileExt name = ".7z" :=
        fileExt_of_suffix name t ['7', 'z'] (by rw [ht]) (by decide)
      unfold isArchiveName resolveArchiveExt
      rw [hfe, if_neg (by decide)]
      decide
    · rcases hasSuffix_elim name ".zip" h with ⟨t, ht⟩
      have hfe : fileExt name = ".zip" :=
        fileExt_of_suffix name t ['z', 'i', 'p'] (by rw [ht]) (by decide)
      unfold isArchiveName resolveArchiveExt
      rw [hfe, if_neg (by decide)]
      decide

/-! ## Extract dispatch and Restore (streaming.go lines 401-422, 1111-1181) -/

/-- The three internal extraction routines of the modern
`StreamingCompressor.Extract`: `ExtractTarZst`, `ExtractZip`, and the
gzip `Compressor.ExtractArchive`. -/
inductive ExtractRoutine where
  | tarZst
  | zipRoutine
  | tarGz
deriving DecidableEq, Repr

/-- `Extract`'s suffix dispatch (lines 407-419): `.tar.zst`, then
`.zip`, then `.tar.gz` / `.tgz`; anything else is unsupported. -/
def extractDispatch (archivePath : String) : Option ExtractRoutine :=
  if hasSuffix archivePath ".tar.zst" then some .tarZst
  else if hasSuffix archivePath ".zip" then some .zipRoutine
  else if hasSuffix archivePath ".tar.gz" = true ∨ hasSuffix archivePath ".tgz" = true then
    some .tarGz
  else none

/-- Oracle for `Extract`: whether the destination `MkdirAll` succeeds
and the outcome of each routine on each archive (`none` = success). -/
structure ExtractEnv where
  mkdirOk : Bool
  run : ExtractRoutine → String → Option String

/-- `StreamingCompressor.Extract` (lines 401-422): create the
destination, dispatch on the archive suffix; the trace records which
routine was invoked on which archive into which destination. -/
def Extract (ex : ExtractEnv) (archivePath destPath : String) :
    Option String × List (String × ExtractRoutine × String) :=
  if ex.mkdirOk = false then (some "failed to create destination", [])
  else
    match extractDispatch archivePath with
    | some r => (ex.run r archivePath, [(archivePath, r, destPath)])
    | none => (some ("unsupported archive format: " ++ archivePath), [])

/-- Oracle for `Restore`: compressor availability, the loaded index, the
target `MkdirAll`, the `ReadDir` listing, and the extract oracle. -/
structure RestoreEnv where
  compressorAvailable : Bool
  backupRoot : String
  loadOk : Bool
  index : Index
  mkdirTargetOk : Bool
  readDirOk : Bool
  dirEntries : List String
  ex : ExtractEnv

structure RestoreTrace where
  mkdirTargetCalled : Bool
  extractions : List (String × ExtractRoutine × String)
deriving DecidableEq, Repr

/-- The archive loop of `Restore` (lines 1148-1177): skip names without
a recognized archive extension, extract the rest in directory order, and
return on the first extraction error. -/
def restoreLoop (ex : ExtractEnv) (backupPath targetPath : String) :
    List String → Option String × List (String × ExtractRoutine × String)
  | [] => (none, [])
  | name :: rest =>
    if isArchiveName name = false then restoreLoop ex backupPath targetPath rest
    else
      match (Extract ex (joinPath backupPath name) targetPath).1 with
      | some err => (some ("failed to extract " ++ name ++ ": " ++ err),
                     (Extract ex (joinPath backupPath name) targetPath).2)
      | none =>
        ((restoreLoop ex backupPath targetPath rest).1,
         (Extract ex (joinPath backupPath name) targetPath).2 ++
           (restoreLoop ex backupPath targetPath rest).2)

/-- `Backup.Restore` (lines 1111-1181): compressor check, index load,
id lookup, target creation, directory scan, extraction loop. -/
def Restore (env : RestoreEnv) (backupID targetPath : String) :
    Option String × RestoreTrace :=
  if env.compressorAvailable = false then (some "compressor not available", ⟨false, []⟩)
  else if env.loadOk = false then (some "failed to load index", ⟨false, []⟩)
  else
    match getByID env.index backupID with
    | none => (some ("backup not found: " ++ backupID), ⟨false, []⟩)
    | some entry =>
      if env.mkdirTargetOk = false then
        (some "failed to create target directory", ⟨true, []⟩)
      else if env.readDirOk = false then
        (some "failed to read backup directory", ⟨true, []⟩)
      else
        let r := restoreLoop env.ex (joinPath env.backupRoot entry.path) targetPath
          env.dirEntries
        (r.1, ⟨true, r.2⟩)

/-- `runRestore` (cli/restore.go lines 34-94): 7-Zip check, `"latest"`
resolution through `GetLatest`, then `Backup.Restore`, whose error is
wrapped as `restore failed: ...`. -/
def runRestore (env : RestoreEnv) (arg targetPath : String) :
    Option String × RestoreTrace :=
  if env.compressorAvailable = false then (some "7-Zip not found", ⟨false, []⟩)
  else if arg = "latest" then
    if env.loadOk = false then (some "failed to get latest backup", ⟨false, []⟩)
    else
      match getLatest env.index with
      | none => (some "no backups found", ⟨false, []⟩)
      | some latest =>
        let r := Restore env latest.id targetPath
        (r.1.map (fun e => "restore failed: " ++ e), r.2)
  else
    let r := Restore env arg targetPath
    (r.1.map (fun e => "restore failed: " ++ e), r.2)

theorem Extract_success_trace (ex : ExtractEnv) (p t : String)
    (h : (Extract ex p t).1 = none) :
    ∃ r, extractDispatch p = some r ∧ (Extract ex p t).2 = [(p, r, t)] := by
  unfold Extract at h ⊢
  by_cases hmk : ex.mkdirOk = false
  · rw [if_pos hmk] at h
    exact absurd h (by simp)
  · rw [if_neg hmk] at h ⊢
    rcases hd : extractDispatch p with _ | r
    · rw [hd] at h
      exact absurd h (by simp)
    · rw [hd] at h
      exact ⟨r, rfl, rfl⟩

/-- When every recognized archive extracts cleanly, the loop succeeds
and its trace is the concatenation of the per-archive traces, in
directory order over exactly the recognized names. -/
theorem restoreLoop_success (ex : ExtractEnv) (bp tgt : String) :
    ∀ names : List String,
      (∀ n ∈ names, isArchiveName n = true → (Extract ex (joinPath bp n) tgt).1 = none) →
      (restoreLoop ex bp tgt names).1 = none ∧
      (restoreLoop ex bp tgt names).2
        = ((names.filter (fun n => isArchiveName n)).map
            (fun n => (Extract ex (joinPath bp n) tgt).2)).flatten := by
  intro names
  induction names with
  | nil => intro _; exact ⟨rfl, rfl⟩
  | cons n rest ih =>
    intro hok
    have hrest := ih (fun x hx => hok x (List.mem_cons_of_mem n hx))
    by_cases hn : isArchiveName n = false
    · unfold restoreLoop
      rw [if_pos hn]
      rw [List.filter_cons_of_neg (by simp [hn])]
      exact hrest
    · have hn2 : isArchiveName n = true := by simpa using hn
      have hE : (Extract ex (joinPath bp n) tgt).1 = none :=
        hok n (List.mem_cons_self n rest) hn2
      unfold restoreLoop
      rw [if_neg hn, hE]
      rw [List.filter_cons_of_pos (by simp [hn2])]
      refine ⟨hrest.1, ?_⟩
      rw [List.map_cons, List.flatten_cons, hrest.2]

/-- The loop aborts on the first failing archive: everything before it
is extracted, nothing after it is touched. -/
theorem restoreLoop_abort (ex : ExtractEnv) (bp tgt : String) :
    ∀ (pre : List String) (bad : String) (post : List String) (err : String),
      (∀ n ∈ pre, isArchiveName n = true → (Extract ex (joinPath bp n) tgt).1 = none) →
      isArchiveName bad = true →
      (Extract ex (joinPath bp bad) tgt).1 = some err →
      (restoreLoop ex bp tgt (pre ++ bad :: post)).1
        = some ("failed to extract " ++ bad ++ ": " ++ err) ∧
      (restoreLoop ex bp tgt (pre ++ bad :: post)).2
        = ((pre.filter (fun n => isArchiveName n)).map
            (fun n => (Extract ex (joinPath bp n) tgt).2)).flatten
          ++ (Extract ex (joinPath bp bad) tgt).2 := by
  intro pre
  induction pre with
  | nil =>
    intro bad post err _ hbad hfail
    rw [List.nil_append]
    unfold restoreLoop
    rw [if_neg (by simp [hbad]), hfail]
    exact ⟨rfl, by simp⟩
  | cons n rest ih =>
    intro bad post err hok hbad hfail
    have hrest := ih bad post err (fun x hx => hok x (List.mem_cons_of_mem n hx)) hbad hfail
    rw [List.cons_append]
    by_cases hn : isArchiveName n = false
    · unfold restoreLoop
      rw [if_pos hn]
      rw [List.filter_cons_of_neg (by simp [hn])]
      exact hrest
    · have hn2 : isArchiveName n = true := by simpa using hn
      have hE : (Extract ex (joinPath bp n) tgt).1 = none :=
        hok n (List.mem_cons_self n rest) hn2
      unfold restoreLoop
      rw [if_neg hn, hE]
      rw [List.filter_cons_of_pos (by simp [hn2])]
      refine ⟨hrest.1, ?_⟩
      rw [List.map_cons, List.flatten_cons, hrest.2, List.append_assoc]

/-- Per-element description of the success trace: every recorded
extraction carries the routine its archive path dispatches to, and the
common target directory. -/
theorem restore_trace_spec (ex : ExtractEnv) (bp tgt : String) :
    ∀ l : List String,
      (∀ n ∈ l, (Extract ex (joinPath bp n) tgt).1 = none) →
      (((l.map (fun n => (Extract ex (joinPath bp n) tgt).2)).flatten).map (fun x => x.1)
          = l.map (fun n => joinPath bp n)) ∧
      (∀ x ∈ (l.map (fun n => (Extract ex (joinPath bp n) tgt).2)).flatten,
          extractDispatch x.1 = some x.2.1 ∧ x.2.2 = tgt) := by
  intro l
  induction l with
  | nil => intro _; exact ⟨rfl, by intro x hx; exact absurd hx (List.not_mem_nil x)⟩
  | cons n rest ih =>
    intro hok
    have hrest := ih (fun x hx => hok x (List.mem_cons_of_mem n hx))
    rcases Extract_success_trace ex (joinPath bp n) tgt
        (hok n (List.mem_cons_self n rest)) with ⟨r, hdr, htr⟩
    rw [List.map_cons, List.flatten_cons, htr]
    constructor
    · rw [List.map_append, hrest.1]
      rfl
    · intro x hx
      rcases List.mem_append.mp hx with hx | hx
      · rcases List.mem_singleton.mp hx with rfl
        exact ⟨hdr, rfl⟩
      · exact hrest.2 x hx

/-- The head of `Restore` under the happy preconditions. -/
theorem Restore_run (env : RestoreEnv) (backupID targetPath : String) (entry : IndexEntry)
    (hav : env.compressorAvailable = true)
    (hld : env.loadOk = true)
    (hfind : getByID env.index backupID = some entry)
    (hmk : env.mkdirTargetOk = true)
    (hrd : env.readDirOk = true) :
    Restore env backupID targetPath
      = ((restoreLoop env.ex (joinPath env.backupRoot entry.path) targetPath
            env.dirEntries).1,
         ⟨true, (restoreLoop env.ex (joinPath env.backupRoot entry.path) targetPath
            env.dirEntries).2⟩) := by
  unfold Restore
  rw [if_neg (by simp [hav]), if_neg (by simp [hld]), hfind]
  dsimp only
  rw [if_neg (by simp [hmk]), if_neg (by simp [hrd])]

/-! ## Claims C6 and C7 -/

def c6cexEnv : RestoreEnv :=
  ⟨true, "root", true, ⟨[⟨"b1", 1, "p", "1 B", "", false, ""⟩]⟩, true, true, ["app.7z"],
   ⟨true, fun _ _ => none⟩⟩

/-- Counterexample to C6 as stated: `app.7z` is selected by the
recognized-extension scan, yet the streaming extractor has no `.7z`
routine, so — although every actual extraction routine in this
environment succeeds — no routine is ever invoked (empty trace) and
the whole restore aborts with an unsupported-format error. -/
theorem c6_counterexample :
    isArchiveName "app.7z" = true ∧
    (∀ (r : ExtractRoutine) (p : String), c6cexEnv.ex.run r p = none) ∧
    (Restore c6cexEnv "b1" "tgt").2.extractions = [] ∧
    (Restore c6cexEnv "b1" "tgt").1
      = some "failed to extract app.7z: unsupported archive format: root/p/app.7z" := by
  refine ⟨by decide, fun r p => rfl, by decide, by decide⟩

/-- C6 (amended): `Restore` selects exactly the files whose name ends in
`.tar.zst`, `.tar.gz`, `.tgz`, `.7z` or `.zip` (double suffixes
detected); when every selected archive extracts cleanly, each is
dispatched to the extraction routine matching its path suffix into the
common target directory, in directory order; the first failing
extraction — which includes a selected `.7z`, for which the streaming
extractor has no routine — aborts the restore with an error, skipping
all remaining archives. -/
theorem c6_restore_amended (env : RestoreEnv) (backupID targetPath : String)
    (entry : IndexEntry)
    (hav : env.compressorAvailable = true)
    (hld : env.loadOk = true)
    (hfind : getByID env.index backupID = some entry)
    (hmk : env.mkdirTargetOk = true)
    (hrd : env.readDirOk = true) :
    (∀ name : String, isArchiveName name = true ↔
        (hasSuffix name ".tar.zst" = true ∨ hasSuffix name ".tar.gz" = true ∨
         hasSuffix name ".tgz" = true ∨ hasSuffix name ".7z" = true ∨
         hasSuffix name ".zip" = true)) ∧
    ((∀ n ∈ env.dirEntries, isArchiveName n = true →
        (Extract env.ex (joinPath (joinPath env.backupRoot entry.path) n) targetPath).1
          = none) →
      (Restore env backupID targetPath).1 = none ∧
      ((Restore env backupID targetPath).2.extractions.map (fun x => x.1)
        = (env.dirEntries.filter (fun n => isArchiveName n)).map
            (fun n => joinPath (joinPath env.backupRoot entry.path) n)) ∧
      (∀ x ∈ (Restore env backupID targetPath).2.extractions,
        extractDispatch x.1 = some x.2.1 ∧ x.2.2 = targetPath)) ∧
    (∀ (pre : List String) (bad : String) (post : List String) (err : String),
      env.dirEntries = pre ++ bad :: post →
      (∀ n ∈ pre, isArchiveName n = true →
        (Extract env.ex (joinPath (joinPath env.backupRoot entry.path) n) targetPath).1
          = none) →
      isArchiveName bad = true →
      (Extract env.ex (joinPath (joinPath env.backupRoot entry.path) bad) targetPath).1
        = some err →
      (Restore env backupID targetPath).1
        = some ("failed to extract " ++ bad ++ ": " ++ err) ∧
      (Restore env backupID targetPath).2.extractions
        = ((pre.filter (fun n => isArchiveName n)).map
            (fun n => (Extract env.ex
              (joinPath (joinPath env.backupRoot entry.path) n) targetPath).2)).flatten
          ++ (Extract env.ex
              (joinPath (joinPath env.backupRoot entry.path) bad) targetPath).2) := by
  have hres := Restore_run env backupID targetPath entry hav hld hfind hmk hrd
  refine ⟨isArchiveName_iff, ?_, ?_⟩
  · intro hext
    rcases restoreLoop_success env.ex (joinPath env.backupRoot entry.path) targetPath
        env.dirEntries hext with ⟨h1, h2⟩
    have hsel : ∀ n ∈ env.dirEntries.filter (fun n => isArchiveName n),
        (Extract env.ex (joinPath (joinPath env.backupRoot entry.path) n) targetPath).1
          = none := by
      intro n hn
      exact hext n (List.mem_of_mem_filter hn) (by simpa using (List.of_mem_filter hn))
    rcases restore_trace_spec env.ex (joinPath env.backupRoot entry.path) targetPath
        (env.dirEntries.filter (fun n => isArchiveName n)) hsel with ⟨ht1, ht2⟩
    rw [hres]
    refine ⟨h1, ?_, ?_⟩
    · dsimp only
      rw [h2, ht1]
    · intro x hx
      dsimp only at hx
      rw [h2] at hx
      exact ht2 x hx
  · intro pre bad post err hsplit hpre hbad hfail
    rcases restoreLoop_abort env.ex (joinPath env.backupRoot entry.path) targetPath
        pre bad post err hpre hbad hfail with ⟨h1, h2⟩
    rw [hres]
    dsimp only
    rw [hsplit]
    exact ⟨h1, h2⟩

def c6wEnv : RestoreEnv :=
  ⟨true, "root", true, ⟨[⟨"b1", 1, "p", "1 B", "", false, ""⟩]⟩, true, true,
   ["a.zip", "note.txt"], ⟨true, fun _ _ => none⟩⟩

/-- Witness for the amended C6: one recognized `.zip` archive and one
ignored `.txt` file; the restore succeeds and extracts exactly the
archive. -/
theorem c6_witness :
    (Restore c6wEnv "b1" "tgt").1 = none ∧
    ((Restore c6wEnv "b1" "tgt").2.extractions.map (fun x => x.1)
      = (c6wEnv.dirEntries.filter (fun n => isArchiveName n)).map
          (fun n => joinPath (joinPath c6wEnv.backupRoot
            (⟨"b1", 1, "p", "1 B", "", false, ""⟩ : IndexEntry).path) n)) := by
  have h := (c6_restore_amended c6wEnv "b1" "tgt" ⟨"b1", 1, "p", "1 B", "", false, ""⟩
      rfl rfl (by decide) rfl rfl).2.1 (by decide)
  exact ⟨h.1, h.2.1⟩

/-- C7: restoring `"latest"` over an empty index fails with "no backups
found" before the target directory is created, and restoring an unknown
id fails with a not-found error before the target directory is created. -/
theorem c7_restore_not_found (env : RestoreEnv) (id target : String)
    (hav : env.compressorAvailable = true) (hld : env.loadOk = true) :
    (env.index.backups = [] →
      (runRestore env "latest" target).1 = some "no backups found" ∧
      (runRestore env "latest" target).2.mkdirTargetCalled = false) ∧
    (id ≠ "latest" → getByID env.index id = none →
      (runRestore env id target).1
        = some ("restore failed: " ++ ("backup not found: " ++ id)) ∧
      (runRestore env id target).2.mkdirTargetCalled = false) := by
  constructor
  · intro hempty
    have hlat : getLatest env.index = none := by
      unfold getLatest sortByDateDesc
      rw [hempty]
      rfl
    unfold runRestore
    rw [if_neg (by simp [hav]), if_pos rfl, if_neg (by simp [hld]), hlat]
    exact ⟨rfl, rfl⟩
  · intro hne hnone
    unfold runRestore
    rw [if_neg (by simp [hav]), if_neg hne]
    unfold Restore
    rw [if_neg (by simp [hav]), if_neg (by simp [hld]), hnone]
    exact ⟨rfl, rfl⟩

def c7wEnv : RestoreEnv :=
  ⟨true, "root", true, ⟨[]⟩, true, true, [], ⟨true, fun _ _ => none⟩⟩

/-- Witness for C7 on an empty index. -/
theorem c7_witness :
    ((runRestore c7wEnv "latest" "t").1 = some "no backups found" ∧
      (runRestore c7wEnv "latest" "t").2.mkdirTargetCalled = false) ∧
    ((runRestore c7wEnv "x" "t").1
        = some ("restore failed: " ++ ("backup not found: " ++ "x")) ∧
      (runRestore c7wEnv "x" "t").2.mkdirTargetCalled = false) :=
  ⟨(c7_restore_not_found c7wEnv "x" "t" rfl rfl).1 rfl,
   (c7_restore_not_found c7wEnv "x" "t" rfl rfl).2 (by decide) rfl⟩

/-! ## Subprocess archiver: copy-then-compress (src/unnamed/part_009) -/

/-- `SevenZipResult` (part_009 lines 25-31). -/
structure SevenZipResult where
  originalSize : Int
  compressedSize : Int
  filesProcessed : Nat
  archivePath : String
  errors : List String
deriving DecidableEq, Repr

/-- One item met by the `filepath.Walk` of `CopyFolderToTemp`. -/
structure WalkItem where
  relPath : String
  size : Int
  isDir : Bool
deriving DecidableEq, Repr

/-- Oracle for the copy-then-compress workflow: the walked tree and the
outcome of every filesystem and subprocess call. -/
structure SevenZipEnv where
  mkdirTempOk : Bool
  walkItems : List WalkItem
  mkdirDirOk : String → Bool
  copyOk : String → Bool
  compressOk : Bool
  archiveStat : Option Int
  removeTempOk : Bool

/-- The walk body of `CopyFolderToTemp` (lines 103-135): a directory is
recreated under temp (an error there aborts the walk); a file that
copies adds to the totals; a file that fails to copy is only logged —
nothing is recorded anywhere — and the walk continues. -/
def walkCopy (env : SevenZipEnv) :
    List WalkItem → Int → Nat → List String → Except String (Int × Nat × List String)
  | [], totalSize, fileCount, copied => .ok (totalSize, fileCount, copied)
  | item :: rest, totalSize, fileCount, copied =>
    if item.isDir then
      (if env.mkdirDirOk item.relPath then walkCopy env rest totalSize fileCount copied
       else .error "copy failed")
    else if env.copyOk item.relPath then
      walkCopy env rest (totalSize + item.size) (fileCount + 1) (copied ++ [item.relPath])
    else
      walkCopy env rest totalSize fileCount copied

/-- `CopyFolderToTemp` (lines 93-142): total size, file count and the
relative paths actually present in the temp copy. -/
def CopyFolderToTemp (env : SevenZipEnv) : Except String (Int × Nat × List String) :=
  if env.mkdirTempOk = false then .error "failed to create temp directory"
  else walkCopy env env.walkItems 0 0 []

/-- Observable outcome of `CopyThenCompress`: its return value, whether
the temp directory still exists, whether `RemoveFolder` was invoked, and
the contents handed to the external compressor. -/
structure CopyCompressOutcome where
  result : Except String SevenZipResult
  tempExists : Bool
  removeInvoked : Bool
  archive : Option (List String)

/-- `CopyThenCompress` (lines 297-330): copy to temp (a copy-phase error
returns immediately, without temp cleanup), compress the temp copy (on
failure the temp folder is removed before returning the error), then
remove the temp folder, recording a cleanup failure as the only possible
entry of `result.Errors`. -/
def CopyThenCompress (env : SevenZipEnv) (archivePath : String) : CopyCompressOutcome :=
  match CopyFolderToTemp env with
  | .error msg => ⟨.error ("copy phase failed: " ++ msg), env.mkdirTempOk, false, none⟩
  | .ok (totalSize, fileCount, copied) =>
    if env.compressOk = false then
      ⟨.error "compress phase failed", (if env.removeTempOk then false else true),
        true, none⟩
    else
      ⟨.ok ⟨totalSize,
            (match env.archiveStat with | some n => n | none => 0),
            fileCount, archivePath,
            (if env.removeTempOk then [] else ["failed to clean temp folder"])⟩,
        (if env.removeTempOk then false else true), true, some copied⟩

def resultErrors : Except String SevenZipResult → Option (List String)
  | .ok r => some r.errors
  | .error _ => none

def resultFiles : Except String SevenZipResult → Option Nat
  | .ok r => some r.filesProcessed
  | .error _ => none

/-- The files that survive the copy phase: non-directory items whose
copy succeeds. -/
def copiedItems (env : SevenZipEnv) (items : List WalkItem) : List WalkItem :=
  items.filter (fun i => !i.isDir && env.copyOk i.relPath)

theorem walkCopy_ok (env : SevenZipEnv) :
    ∀ (items : List WalkItem) (t : Int) (c : Nat) (copied : List String),
      (∀ i ∈ items, i.isDir = true → env.mkdirDirOk i.relPath = true) →
      walkCopy env items t c copied
        = .ok (t + ((copiedItems env items).map (fun i => i.size)).sum,
               c + (copiedItems env items).length,
               copied ++ (copiedItems env items).map (fun i => i.relPath)) := by
  intro items
  induction items with
  | nil =>
    intro t c copied _
    simp [walkCopy, copiedItems]
  | cons item rest ih =>
    intro t c copied hdir
    have hrest := fun t c copied => ih t c copied
      (fun i hi => hdir i (List.mem_cons_of_mem item hi))
    by_cases hd : item.isDir = true
    · have hmk : env.mkdirDirOk item.relPath = true := hdir item (List.mem_cons_self item rest) hd
      unfold walkCopy
      rw [if_pos hd, if_pos hmk, hrest t c copied]
      have hfil : copiedItems env (item :: rest) = copiedItems env rest := by
        unfold copiedItems
        rw [List.filter_cons_of_neg (by simp [hd])]
      rw [hfil]
    · have hd2 : item.isDir = false := by simpa using hd
      by_cases hc : env.copyOk item.relPath = true
      · unfold walkCopy
        rw [if_neg (by simp [hd2]), if_pos hc,
          hrest (t + item.size) (c + 1) (copied ++ [item.relPath])]
        have hfil : copiedItems env (item :: rest) = item :: copiedItems env rest := by
          unfold copiedItems
          rw [List.filter_cons_of_pos (by simp [hd2, hc])]
        rw [hfil]
        simp only [Except.ok.injEq, Prod.mk.injEq, List.map_cons, List.sum_cons,
          List.length_cons]
        refine ⟨by ring, by omega, by rw [List.append_assoc]; rfl⟩
      · have hc2 : env.copyOk item.relPath = false := by simpa using hc
        unfold walkCopy
        rw [if_neg (by simp [hd2]), if_neg (by simp [hc2]), hrest t c copied]
        have hfil : copiedItems env (item :: rest) = copiedItems env rest := by
          unfold copiedItems
          rw [List.filter_cons_of_neg (by simp [hd2, hc2])]
        rw [hfil]

theorem CopyFolderToTemp_ok (env : SevenZipEnv)
    (hmk : env.mkdirTempOk = true)
    (hdir : ∀ i ∈ env.walkItems, i.isDir = true → env.mkdirDirOk i.relPath = true) :
    CopyFolderToTemp env
      = .ok (((copiedItems env env.walkItems).map (fun i => i.size)).sum,
             (copiedItems env env.walkItems).length,
             (copiedItems env env.walkItems).map (fun i => i.relPath)) := by
  unfold CopyFolderToTemp
  rw [if_neg (by simp [hmk]), walkCopy_ok env env.walkItems 0 0 [] hdir]
  simp

/-! ## Claims C4 and C5 -/

def c4cexEnv : SevenZipEnv :=
  ⟨true, [⟨"a", 1, false⟩, ⟨"b", 1, false⟩, ⟨"c", 1, false⟩],
   fun _ => true, fun p => decide (p ≠ "b"), true, some 5, true⟩

/-- Counterexample to C4 as stated: the copy of file `b` fails while
`a` and `c` copy fine; the returned result's `Errors` list is empty —
not "exactly one entry for that file" — because `CopyFolderToTemp` only
logs a failed copy and records nothing; the archive still holds the
other two files and the temp directory is gone. -/
theorem c4_counterexample :
    c4cexEnv.copyOk "b" = false ∧
    resultErrors (CopyThenCompress c4cexEnv "arch.7z").result = some [] ∧
    (CopyThenCompress c4cexEnv "arch.7z").archive = some ["a", "c"] ∧
    (CopyThenCompress c4cexEnv "arch.7z").tempExists = false := by
  refine ⟨by decide, by decide, by decide, by decide⟩

/-- C4 (amended): when some files fail to copy during the copy phase
(and every directory creation, the compression, and the temp cleanup
succeed), the failed copies are only logged: the returned
`SevenZipResult.Errors` stays empty, `FilesProcessed` counts only the
successful copies, the archive contains exactly the files that copied
successfully, and the temp directory no longer exists afterward. -/
theorem c4_copy_errors_amended (env : SevenZipEnv) (archivePath : String)
    (hmk : env.mkdirTempOk = true)
    (hdir : ∀ i ∈ env.walkItems, i.isDir = true → env.mkdirDirOk i.relPath = true)
    (hcomp : env.compressOk = true)
    (hrm : env.removeTempOk = true) :
    resultErrors (CopyThenCompress env archivePath).result = some [] ∧
    resultFiles (CopyThenCompress env archivePath).result
      = some (copiedItems env env.walkItems).length ∧
    (CopyThenCompress env archivePath).archive
      = some ((copiedItems env env.walkItems).map (fun i => i.relPath)) ∧
    (CopyThenCompress env archivePath).tempExists = false := by
  unfold CopyThenCompress
  rw [CopyFolderToTemp_ok env hmk hdir]
  dsimp only
  rw [if_neg (by simp [hcomp])]
  simp [resultErrors, resultFiles, hrm]

def c4wEnv : SevenZipEnv :=
  ⟨true, [⟨"d", 0, true⟩, ⟨"x", 2, false⟩, ⟨"y", 3, false⟩],
   fun _ => true, fun p => decide (p ≠ "y"), true, some 9, true⟩

/-- Witness for the amended C4: `y` fails to copy, so only `x` reaches
the archive and no error is recorded. -/
theorem c4_witness :
    resultErrors (CopyThenCompress c4wEnv "arch.7z").result = some [] ∧
    resultFiles (CopyThenCompress c4wEnv "arch.7z").result
      = some (copiedItems c4wEnv c4wEnv.walkItems).length ∧
    (CopyThenCompress c4wEnv "arch.7z").archive
      = some ((copiedItems c4wEnv c4wEnv.walkItems).map (fun i => i.relPath)) ∧
    (CopyThenCompress c4wEnv "arch.7z").tempExists = false :=
  c4_copy_errors_amended c4wEnv "arch.7z" rfl (by decide) rfl rfl

/-- C5: whenever the copy phase of `CopyThenCompress` succeeds,
`RemoveFolder(tempPath)` is invoked before the call returns — both when
the external compression succeeds and when it fails — so (when the
removal call itself succeeds) the temp directory no longer exists on
either path. -/
theorem c5_temp_cleanup (env : SevenZipEnv) (archivePath : String)
    (hmk : env.mkdirTempOk = true)
    (hdir : ∀ i ∈ env.walkItems, i.isDir = true → env.mkdirDirOk i.relPath = true) :
    ∀ b : Bool,
      (CopyThenCompress { env with compressOk := b } archivePath).removeInvoked = true ∧
      (env.removeTempOk = true →
        (CopyThenCompress { env with compressOk := b } archivePath).tempExists = false) := by
  intro b
  have hmk2 : ({ env with compressOk := b } : SevenZipEnv).mkdirTempOk = true := hmk
  have hdir2 : ∀ i ∈ ({ env with compressOk := b } : SevenZipEnv).walkItems,
      i.isDir = true → ({ env with compressOk := b } : SevenZipEnv).mkdirDirOk i.relPath = true :=
    hdir
  unfold CopyThenCompress
  rw [CopyFolderToTemp_ok _ hmk2 hdir2]
  dsimp only
  cases b
  · rw [if_pos rfl]
    refine ⟨rfl, ?_⟩
    intro hrm
    simp [hrm]
  · rw [if_neg (by simp)]
    refine ⟨rfl, ?_⟩
    intro hrm
    simp [hrm]

def c5wEnv : SevenZipEnv :=
  ⟨true, [⟨"x", 2, false⟩], fun _ => true, fun _ => true, true, some 1, true⟩

/-- Witness for C5 on the compression-failure path. -/
theorem c5_witness :
    (CopyThenCompress { c5wEnv with compressOk := false } "a.7z").removeInvoked = true ∧
    (CopyThenCompress { c5wEnv with compressOk := false } "a.7z").tempExists = false := by
  have h := c5_temp_cleanup c5wEnv "a.7z" rfl (by decide) false
  exact ⟨h.1, h.2 rfl⟩

/-! ## Collector (collector.go lines 109-208) -/

/-- The `strings.ReplaceAll(pattern, "**", "*")` step of `matchPattern`,
left to right, non-overlapping. -/
def replaceDS : List Char → List Char
  | '*' :: '*' :: rest => '*' :: replaceDS rest
  | c :: rest => c :: replaceDS rest
  | [] => []

def hasDoubleStar : List Char → Bool
  | '*' :: '*' :: _ => true
  | _ :: rest => hasDoubleStar rest
  | [] => false

/-- `matchPattern` (collector.go lines 200-208): rewrite `**` to `*`
when present, then delegate to `filepath.Match` — the stdlib glob
engine, abstracted here as `goMatch pattern name`. -/
def matchPattern (goMatch : String → String → Bool) (name pattern : String) : Bool :=
  goMatch
    (if hasDoubleStar pattern.data then String.mk (replaceDS pattern.data) else pattern)
    name

/-- An abstract directory tree as visited by `filepath.WalkDir`. -/
inductive FSNode where
  | file : String → Int → FSNode
  | dir : String → List FSNode → FSNode

def FSNode.nodeName : FSNode → String
  | .file n _ => n
  | .dir n _ => n

/-- One appended entry of `collectPathWithPatterns`, keeping the visited
name and walk-relative path so the pattern tests can be stated. -/
structure Visit where
  name : String
  rel : String
  isDir : Bool
  size : Int
deriving DecidableEq, Repr

/-- The include gate (lines 148-159): with a nonempty include list a
file must match at least one pattern, on its name or its relative
path. -/
def includeOk (mp : String → String → Bool) (includePats : List String)
    (name rel : String) : Bool :=
  includePats.isEmpty || includePats.any (fun p => mp name p || mp rel p)

/-- The exclude test (lines 162-169): any pattern matching the name or
the relative path. -/
def excludedBy (mp : String → String → Bool) (excludePats : List String)
    (name rel : String) : Bool :=
  excludePats.any (fun p => mp name p || mp rel p)

/-- `filepath.Rel` of a child of the walk, with `"."` at the root. -/
def childRel (rel name : String) : String :=
  if rel = "." then name else rel ++ "/" ++ name

mutual
/-- The WalkDir body of `collectPathWithPatterns` (lines 132-192) over
one node, parameterized by the matcher `mp` (the repo's `matchPattern`
applied to the stdlib glob engine): include patterns gate files only,
an exclude match drops a file or short-circuits a whole directory
subtree, and every surviving visit is appended, directories included. -/
def collectNode (mp : String → String → Bool)
    (includePats excludePats : List String) : String → FSNode → List Visit
  | rel, .file n sz =>
    if includeOk mp includePats n rel = false then []
    else if excludedBy mp excludePats n rel then []
    else [⟨n, rel, false, sz⟩]
  | rel, .dir n children =>
    if excludedBy mp excludePats n rel then []
    else ⟨n, rel, true, 0⟩ :: collectChildren mp includePats excludePats rel children

def collectChildren (mp : String → String → Bool)
    (includePats excludePats : List String) : String → List FSNode → List Visit
  | _, [] => []
  | rel, c :: cs =>
    collectNode mp includePats excludePats (childRel rel c.nodeName) c ++
      collectChildren mp includePats excludePats rel cs
end

mutual
/-- The files the walk can reach at all: everything below an excluded
directory is unreachable; no per-file include/exclude test is applied
here. -/
def reachableFiles (mp : String → String → Bool)
    (excludePats : List String) : String → FSNode → List Visit
  | rel, .file n sz => [⟨n, rel, false, sz⟩]
  | rel, .dir n children =>
    if excludedBy mp excludePats n rel then []
    else reachableChildren mp excludePats rel children

def reachableChildren (mp : String → String → Bool)
    (excludePats : List String) : String → List FSNode → List Visit
  | _, [] => []
  | rel, c :: cs =>
    reachableFiles mp excludePats (childRel rel c.nodeName) c ++
      reachableChildren mp excludePats rel cs
end

mutual
theorem collect_filter_node (mp : String → String → Bool)
    (includePats excludePats : List String) :
    ∀ (rel : String) (t : FSNode),
      (collectNode mp includePats excludePats rel t).filter (fun v => !v.isDir)
        = (reachableFiles mp excludePats rel t).filter
            (fun v => includeOk mp includePats v.name v.rel &&
                      !excludedBy mp excludePats v.name v.rel)
  | rel, .file n sz => by
    unfold collectNode reachableFiles
    by_cases hinc : includeOk mp includePats n rel = false
    · rw [if_pos hinc]
      simp [hinc]
    · have hinc2 : includeOk mp includePats n rel = true := by simpa using hinc
      rw [if_neg hinc]
      by_cases hexc : excludedBy mp excludePats n rel = true
      · rw [if_pos hexc]
        simp [hexc]
      · have hexc2 : excludedBy mp excludePats n rel = false := by simpa using hexc
        rw [if_neg hexc]
        simp [hinc2, hexc2]
  | rel, .dir n children => by
    unfold collectNode reachableFiles
    by_cases hexc : excludedBy mp excludePats n rel = true
    · rw [if_pos hexc, if_pos hexc]
      rfl
    · rw [if_neg hexc, if_neg hexc]
      rw [List.filter_cons_of_neg (by simp)]
      exact collect_filter_children mp includePats excludePats rel children

theorem collect_filter_children (mp : String → String → Bool)
    (includePats excludePats : List String) :
    ∀ (rel : String) (l : List FSNode),
      (collectChildren mp includePats excludePats rel l).filter (fun v => !v.isDir)
        = (reachableChildren mp excludePats rel l).filter
            (fun v => includeOk mp includePats v.name v.rel &&
                      !excludedBy mp excludePats v.name v.rel)
  | _, [] => by
    unfold collectChildren reachableChildren
    rfl
  | rel, c :: cs => by
    unfold collectChildren reachableChildren
    rw [List.filter_append, List.filter_append]
    rw [collect_filter_node mp includePats excludePats (childRel rel c.nodeName) c]
    rw [collect_filter_children mp includePats excludePats rel cs]
end

/-- C8: for every directory walk of the Collector (any glob matcher,
any pattern lists, any starting relative path), (1) the files in the
output are exactly the files not cut off by an excluded ancestor
directory that pass the include gate (nonempty include list requires a
match) and match no exclude pattern; (2) a directory matching an
exclude pattern is skipped with its whole subtree; (3) a directory not
matching any exclude pattern is entered and emitted regardless of the
include patterns, which apply only to files. -/
theorem c8_collector_patterns (mp : String → String → Bool)
    (includePats excludePats : List String) (rel : String) :
    (∀ t : FSNode,
      (collectNode mp includePats excludePats rel t).filter (fun v => !v.isDir)
        = (reachableFiles mp excludePats rel t).filter
            (fun v => includeOk mp includePats v.name v.rel &&
                      !excludedBy mp excludePats v.name v.rel)) ∧
    (∀ (n : String) (children : List FSNode),
      excludedBy mp excludePats n rel = true →
        collectNode mp includePats excludePats rel (.dir n children) = []) ∧
    (∀ (n : String) (children : List FSNode),
      excludedBy mp excludePats n rel = false →
        collectNode mp includePats excludePats rel (.dir n children)
          = ⟨n, rel, true, 0⟩ :: collectChildren mp includePats excludePats rel children) := by
  refine ⟨collect_filter_node mp includePats excludePats rel, ?_, ?_⟩
  · intro n children hexc
    unfold collectNode
    rw [if_pos hexc]
  · intro n children hexc
    unfold collectNode
    rw [if_neg (by simp [hexc])]

/-- Witness for C8: a directory matching an exclude pattern is dropped
with its contents. -/
theorem c8_witness :
    collectNode (fun n p => n == p) [] ["skip"] "." (.dir "skip" [.file "a" 1]) = [] :=
  (c8_collector_patterns (fun n p => n == p) [] ["skip"] ".").2.1 "skip" [.file "a" 1]
    (by decide)

end Lifeboat
